import Mathlib

/-!
Verification development for the bike-linkage kinematics core of the
trigpoint backend (`app/kinematics/linkage_solver.py`).

The Python source is embedded shallowly over exact rationals `ℚ`:

* Python floats become `ℚ` (float literals such as `1e-6` and `1e-9` become
  the exact rationals `1/1000000` and `1/1000000000`);
* `math.hypot`, the one irrational operation, is kept as an explicit
  parameter `hyp : ℚ → ℚ → ℚ` of every definition that uses it.  All
  theorems below are stated for an arbitrary `hyp`, so they hold in
  particular for the Euclidean one.  Concrete witnesses and
  counterexamples instantiate `hyp` with `l1dist` (the L1 norm of the
  difference vector) and use axis-aligned geometry, on which `l1dist`
  coincides with the Euclidean distance, so every concrete number that
  appears in a witness is the number the real program computes;
* fallible code (`raise ValueError`) becomes `Except String`;
* Python lists become `List`, with reads `List.getD` and in-place writes
  `List.set` (the source only ever indexes within bounds, since all
  indices come from the validated id->index map).
-/

/-- Mirror of the pydantic model `BikePoint` (`app/schemas.py`): the fields
the solver reads (`id`, `type`, `x`, `y`).  The unused display fields
(`name`, `coords`) are omitted. -/
structure BikePoint where
  id : String
  type : String
  x : ℚ
  y : ℚ
  deriving DecidableEq, Inhabited

/-- Mirror of the pydantic model `RigidBody` (`app/schemas.py`): the fields
the solver reads.  `type` is optional in the schema (`Optional[str]`). -/
structure RigidBody where
  id : String
  point_ids : List String := []
  type : Option String := none
  closed : Bool := false
  length0 : Option ℚ := none
  stroke : Option ℚ := none
  deriving DecidableEq, Inhabited

/-- `LinkEdge` from `linkage_solver.py`: one distance constraint. -/
structure LinkEdge where
  ia : ℕ
  ib : ℕ
  L0 : ℚ
  is_shock : Bool
  deriving DecidableEq, Inhabited

/-- `SolverStep` from `linkage_solver.py`.  The Python `points` dict
(`{p.id: (x[i], y[i]) for i, p in enumerate(points)}`) is modelled as the
association list in insertion order; keys are unique because the builder
validated point-id uniqueness, so the dict and the list carry the same
information. -/
structure SolverStep where
  step_index : ℕ
  shock_stroke : ℚ
  shock_length : ℚ
  rear_travel : Option ℚ
  leverage_ratio : Option ℚ
  points : List (String × ℚ × ℚ)
  deriving DecidableEq, Inhabited

/-- `SolverResult` from `linkage_solver.py`. -/
structure SolverResult where
  steps : List SolverStep
  rear_axle_point_id : Option String
  deriving DecidableEq, Inhabited

/-- Output bundle of `_build_internal_model` (its 6-tuple return value). -/
structure BuildOut where
  edges : List LinkEdge
  fixed : List Bool
  rear_axle_idx : Option ℕ
  driver_edge_idx : ℕ
  driver_L0 : ℚ
  driver_stroke : ℚ
  deriving DecidableEq, Inhabited

/-- Intermediate state of the body loop in `_build_internal_model`:
the growing edge list, the fixed flags, and the driver information
`(driver_edge_idx, driver_L0, driver_stroke)` once a shock was seen. -/
structure BState where
  edges : List LinkEdge
  fixed : List Bool
  driver : Option (ℕ × ℚ × ℚ)
  deriving DecidableEq, Inhabited

/-- The id -> index lookup `idx = {p.id: i for i, p in enumerate(points)}`.
`_build_internal_model` only reads it after checking that ids are unique,
so the first-occurrence index equals the dict entry. -/
def pindex (points : List BikePoint) (pid : String) : Option ℕ :=
  points.findIdx? (fun p => p.id == pid)

/-- Left fold with early error exit: the shape of every loop in
`_build_internal_model` (a `raise` aborts the whole call). -/
def exceptFold {σ α : Type} (f : σ → α → Except String σ) : σ → List α → Except String σ
  | s, [] => Except.ok s
  | s, a :: t =>
    match f s a with
    | Except.error e => Except.error e
    | Except.ok s1 => exceptFold f s1 t

/-- Lines 103-107: for a body with `type == "fixed"`, mark every member
point as fixed, failing on an unknown point id. -/
def markFixed (points : List BikePoint) (st : BState) (pids : List String) :
    Except String BState :=
  exceptFold
    (fun st pid =>
      match pindex points pid with
      | none => Except.error "RigidBody references unknown point id."
      | some i => Except.ok ⟨st.edges, st.fixed.set i true, st.driver⟩)
    st pids

/-- Lines 109-112: the ordered segment pairs of a body,
`list(zip(pids, pids[1:]))` plus the wrap-around pair when
`body.closed and len(pids) > 2`. -/
def segPairs (body : RigidBody) : List (String × String) :=
  let pids := body.point_ids
  pids.zip pids.tail ++
    (if body.closed ∧ 2 < pids.length then [(pids.getLastD "", pids.headD "")] else [])

/-- Lines 114-137: process one segment pair — resolve indices, compute the
geometric rest length, and append either the shock (driver) edge or a
plain bar edge. -/
def processSeg (hyp : ℚ → ℚ → ℚ) (points : List BikePoint) (x0 y0 : List ℚ)
    (body : RigidBody) (st : BState) (seg : String × String) : Except String BState :=
  match pindex points seg.1, pindex points seg.2 with
  | some ia, some ib =>
    let dx := x0.getD ib 0 - x0.getD ia 0
    let dy := y0.getD ib 0 - y0.getD ia 0
    let L0_geom := hyp dx dy
    if body.type = some "shock" then
      let L0 := body.length0.getD L0_geom
      match body.stroke with
      | none => Except.error "Shock body must define stroke."
      | some strk =>
        let edges1 := st.edges ++ [⟨ia, ib, L0, true⟩]
        if st.driver.isSome then
          Except.error "Multiple shock bodies found; only one driver is supported."
        else
          Except.ok ⟨edges1, st.fixed, some (edges1.length - 1, L0, strk)⟩
    else
      Except.ok ⟨st.edges ++ [⟨ia, ib, L0_geom, false⟩], st.fixed, st.driver⟩
  | _, _ => Except.error "RigidBody references unknown point."

/-- Lines 97-137: process one rigid body.  Bodies with fewer than two
point ids are skipped (`continue`); a `fixed`-type body first pins its
member points; then every segment pair is turned into an edge. -/
def processBody (hyp : ℚ → ℚ → ℚ) (points : List BikePoint) (x0 y0 : List ℚ)
    (st : BState) (body : RigidBody) : Except String BState :=
  let pids := body.point_ids
  if pids.length < 2 then Except.ok st
  else
    match (if body.type = some "fixed" then markFixed points st pids else Except.ok st) with
    | Except.error e => Except.error e
    | Except.ok st1 => exceptFold (processSeg hyp points x0 y0 body) st1 (segPairs body)

/-- `_build_internal_model` (lines 48-142).  Validation order follows the
source: empty points, empty bodies, duplicate point ids (the dict `idx`
has fewer entries than `points` exactly when ids repeat), then the body
loop, then the final missing-driver check. -/
def build_internal_model (hyp : ℚ → ℚ → ℚ) (points : List BikePoint)
    (bodies : List RigidBody) : Except String BuildOut :=
  if points.isEmpty then Except.error "No points defined for this bike."
  else if bodies.isEmpty then Except.error "No rigid bodies defined for this bike."
  else if ¬ (points.map (fun p => p.id)).Nodup then
    Except.error "BikePoint IDs must be unique."
  else
    let x0 := points.map (fun p => p.x)
    let y0 := points.map (fun p => p.y)
    let fixed0 := points.map (fun p => p.type == "fixed" || p.type == "bb")
    let rear_axle_idx := points.findIdx? (fun p => p.type == "rear_axle")
    match exceptFold (processBody hyp points x0 y0) ⟨[], fixed0, none⟩ bodies with
    | Except.error e => Except.error e
    | Except.ok st =>
      match st.driver with
      | none => Except.error "No shock body found; need exactly one RigidBody with type='shock'."
      | some d => Except.ok ⟨st.edges, st.fixed, rear_axle_idx, d.1, d.2.1, d.2.2⟩

/-- Python's built-in `max` on two rationals.  (Stated as an `if` so that
the kernel can evaluate it on concrete inputs; equal to `Max.max`.) -/
def pymax (a b : ℚ) : ℚ := if a ≤ b then b else a

/-- Python's built-in `max` on two ints. -/
def pymaxI (a b : ℤ) : ℤ := if a ≤ b then b else a

/-- Python's built-in `abs` on a rational. -/
def pyabs (q : ℚ) : ℚ := if q < 0 then -q else q

/-- Line 194, `dist = math.hypot(dx, dy) or 1e-9`: Python's `or` replaces
a falsy (exactly zero) distance by `1e-9` and leaves every other value
unchanged. -/
def relaxDivisor (d : ℚ) : ℚ :=
  if d = 0 then 1 / 1000000000 else d

/-- Lines 183-216: the relaxation update of one edge (state is the pair of
coordinate lists).  The two writes of the both-free branch are sequenced
exactly as in the source (the second read sees the first write). -/
def relaxEdge (hyp : ℚ → ℚ → ℚ) (fixed : List Bool) (driver_edge_idx : ℕ)
    (target_shock_len : ℚ) (st : List ℚ × List ℚ) (eiEdge : ℕ × LinkEdge) :
    List ℚ × List ℚ :=
  let x := st.1
  let y := st.2
  let ei := eiEdge.1
  let edge := eiEdge.2
  let ia := edge.ia
  let ib := edge.ib
  let target_L := if ei = driver_edge_idx ∧ edge.is_shock then
      pymax (1 / 1000000) target_shock_len
    else edge.L0
  let dx := x.getD ib 0 - x.getD ia 0
  let dy := y.getD ib 0 - y.getD ia 0
  let dist := relaxDivisor (hyp dx dy)
  let diff := (dist - target_L) / dist
  let fa := fixed.getD ia false
  let fb := fixed.getD ib false
  if fa && fb then (x, y)
  else if fa && !fb then
    (x.set ib (x.getD ib 0 - dx * diff), y.set ib (y.getD ib 0 - dy * diff))
  else if fb && !fa then
    (x.set ia (x.getD ia 0 + dx * diff), y.set ia (y.getD ia 0 + dy * diff))
  else
    let half : ℚ := 1 / 2
    let x1 := x.set ia (x.getD ia 0 + dx * diff * half)
    let y1 := y.set ia (y.getD ia 0 + dy * diff * half)
    let x2 := x1.set ib (x1.getD ib 0 - dx * diff * half)
    let y2 := y1.set ib (y1.getD ib 0 - dy * diff * half)
    (x2, y2)

/-- One inner iteration (lines 183-216): every edge in declaration order. -/
def relaxPass (hyp : ℚ → ℚ → ℚ) (fixed : List Bool) (driver_edge_idx : ℕ)
    (target_shock_len : ℚ) (edges : List LinkEdge) (st : List ℚ × List ℚ) :
    List ℚ × List ℚ :=
  edges.enum.foldl (relaxEdge hyp fixed driver_edge_idx target_shock_len) st

/-- Line 178: `s = driver_stroke * (step_i / n_steps)`. -/
def strokeAt (driver_stroke : ℚ) (ns : ℕ) (k : ℕ) : ℚ :=
  driver_stroke * ((k : ℚ) / (ns : ℚ))

/-- Lines 176-252: the body of the step loop.  The fold state is the
mutable coordinate lists plus the `steps` record list; positions carry
over from the previous step. -/
def solveStep (hyp : ℚ → ℚ → ℚ) (points : List BikePoint) (edges : List LinkEdge)
    (fixed : List Bool) (rear_axle_idx : Option ℕ) (rear_y0 : Option ℚ)
    (driver_edge_idx : ℕ) (driver_L0 driver_stroke : ℚ) (ns iters : ℕ)
    (st : List ℚ × List ℚ × List SolverStep) (step_i : ℕ) :
    List ℚ × List ℚ × List SolverStep :=
  let x := st.1
  let y := st.2.1
  let steps := st.2.2
  let s := strokeAt driver_stroke ns step_i
  let target_shock_len := driver_L0 - s
  let xy := (relaxPass hyp fixed driver_edge_idx target_shock_len edges)^[iters] (x, y)
  let x := xy.1
  let y := xy.2
  let rear_travel : Option ℚ :=
    match rear_axle_idx, rear_y0 with
    | some ri, some ry0 => some (ry0 - y.getD ri 0)
    | _, _ => none
  let driver_edge := edges.getD driver_edge_idx default
  let ddx := x.getD driver_edge.ib 0 - x.getD driver_edge.ia 0
  let ddy := y.getD driver_edge.ib 0 - y.getD driver_edge.ia 0
  let shock_len := hyp ddx ddy
  let positions := points.enum.map (fun ip => (ip.2.id, x.getD ip.1 0, y.getD ip.1 0))
  let leverage : Option ℚ :=
    if 0 < step_i then
      match rear_travel, steps.getLast? with
      | some rt, some prev =>
        match prev.rear_travel with
        | some prt =>
          let ds := s - prev.shock_stroke
          if 1 / 1000000000 < pyabs ds then some ((rt - prt) / ds) else none
        | none => none
      | _, _ => none
    else none
  (x, y, steps ++ [⟨step_i, s, shock_len, rear_travel, leverage, positions⟩])

/-- `_solve_with_edges` (lines 147-255).  `n_steps` and `iterations` are
Python ints (`ℤ`), clamped with `max(1, ·)` before the sweep over
`range(n_steps + 1)`. -/
def solve_with_edges (hyp : ℚ → ℚ → ℚ) (points : List BikePoint)
    (edges : List LinkEdge) (fixed : List Bool) (rear_axle_idx : Option ℕ)
    (driver_edge_idx : ℕ) (driver_L0 driver_stroke : ℚ) (n_steps iterations : ℤ) :
    SolverResult :=
  let x := points.map (fun p => p.x)
  let y := points.map (fun p => p.y)
  let rear_y0 := rear_axle_idx.map (fun ri => y.getD ri 0)
  let ns := (pymaxI 1 n_steps).toNat
  let iters := (pymaxI 1 iterations).toNat
  let final := (List.range (ns + 1)).foldl
    (solveStep hyp points edges fixed rear_axle_idx rear_y0 driver_edge_idx
      driver_L0 driver_stroke ns iters)
    (x, y, [])
  let rear_axle_id := rear_axle_idx.map (fun ri => (points.getD ri default).id)
  ⟨final.2.2, rear_axle_id⟩

/-- `solve_bike_linkage` (lines 260-295): build, then solve. -/
def solve_bike_linkage (hyp : ℚ → ℚ → ℚ) (points : List BikePoint)
    (bodies : List RigidBody) (n_steps : ℤ := 80) (iterations : ℤ := 100) :
    Except String SolverResult :=
  match build_internal_model hyp points bodies with
  | Except.error e => Except.error e
  | Except.ok b =>
    Except.ok (solve_with_edges hyp points b.edges b.fixed b.rear_axle_idx
      b.driver_edge_idx b.driver_L0 b.driver_stroke n_steps iterations)

/-- The step list of a solver outcome (empty on a validation error); used
to state properties of `solve_bike_linkage` results. -/
def resSteps (e : Except String SolverResult) : List SolverStep :=
  match e with
  | Except.ok r => r.steps
  | Except.error _ => []

/-- Concrete stand-in for `math.hypot` used by witnesses and
counterexamples: the L1 norm of the difference vector.  On axis-aligned
segments (one coordinate difference zero) it equals the Euclidean
distance, and like the Euclidean norm it is definite (zero only at the
origin), which is all any theorem below assumes about the distance
function. -/
def l1dist (dx dy : ℚ) : ℚ := pyabs dx + pyabs dy

/-- A body that the builder treats as a shock driver candidate: declared
`type == "shock"` and structural (at least two point ids).  Used to state
the multiple-shock validation property. -/
def isQualShock (b : RigidBody) : Bool :=
  b.type == some "shock" && decide (2 ≤ b.point_ids.length)

/-- Modelled from the spec: the rest length a single segment of a body is
specified to get.  This is the reference definition for the refinement
claim about rest lengths — as amended: the Euclidean rest length computed
from the initial coordinates, except that a shock body's `length0`
override, when present, replaces it (the source honours `length0` only in
the shock branch). -/
def specEdge (hyp : ℚ → ℚ → ℚ) (pts : List BikePoint) (body : RigidBody)
    (seg : String × String) : LinkEdge :=
  let ia := (pindex pts seg.1).getD 0
  let ib := (pindex pts seg.2).getD 0
  let x0 := pts.map (fun p => p.x)
  let y0 := pts.map (fun p => p.y)
  let geom := hyp (x0.getD ib 0 - x0.getD ia 0) (y0.getD ib 0 - y0.getD ia 0)
  if body.type = some "shock" then ⟨ia, ib, body.length0.getD geom, true⟩
  else ⟨ia, ib, geom, false⟩

/-- Modelled from the spec (amended form): the full edge list one body
contributes — nothing for a non-structural body (fewer than two point
ids), else one edge per segment pair. -/
def specBodyEdges (hyp : ℚ → ℚ → ℚ) (pts : List BikePoint) (body : RigidBody) :
    List LinkEdge :=
  if body.point_ids.length < 2 then []
  else (segPairs body).map (specEdge hyp pts body)

/-! ### Concrete inputs for witnesses and counterexamples.
All geometry is axis-aligned (x constant along every segment except in
`c8pts`, where y is constant), so `l1dist` returns exactly the Euclidean
distances the Python program would compute. -/

/-- A minimal valid linkage: a pinned point and a free point joined by a
shock of rest length 5 and stroke 2. -/
def wpts : List BikePoint := [⟨"p1", "fixed", 0, 0⟩, ⟨"p2", "free", 0, 5⟩]

/-- Body list for `wpts`. -/
def wbds : List RigidBody := [⟨"sh", ["p1", "p2"], some "shock", false, none, some 2⟩]

/-- Same linkage with the free point marked as the rear axle. -/
def w5pts : List BikePoint := [⟨"p1", "fixed", 0, 0⟩, ⟨"p2", "rear_axle", 0, 5⟩]

/-- A builder-accepted input whose shock stroke is negative. -/
def c1bds : List RigidBody := [⟨"sh", ["p1", "p2"], some "shock", false, none, some (-1)⟩]

/-- Bodies containing a single-point body that references a point id that
does not exist, next to a valid shock. -/
def c2bds : List RigidBody :=
  [⟨"ghost", ["nope"], some "bar", false, none, none⟩,
   ⟨"sh", ["p1", "p2"], some "shock", false, none, some 10⟩]

/-- Three collinear points for the `length0`-override counterexample. -/
def c3pts : List BikePoint :=
  [⟨"p1", "fixed", 0, 0⟩, ⟨"p2", "free", 0, 4⟩, ⟨"p3", "free", 0, 9⟩]

/-- A bar body carrying `length0 = 99` (geometric length 4) plus a shock. -/
def c3bds : List RigidBody :=
  [⟨"bar", ["p1", "p2"], some "bar", false, some 99, none⟩,
   ⟨"sh", ["p2", "p3"], some "shock", false, none, some 2⟩]

/-- Three free points for the one-point-fixed-body counterexample. -/
def c4pts : List BikePoint :=
  [⟨"p1", "free", 0, 0⟩, ⟨"p2", "free", 0, 5⟩, ⟨"p3", "free", 0, 10⟩]

/-- A `fixed`-type body listing exactly one point, plus a valid shock. -/
def c4bds : List RigidBody :=
  [⟨"fx", ["p1"], some "fixed", false, none, none⟩,
   ⟨"sh", ["p2", "p3"], some "shock", false, none, some 2⟩]

/-- Four free points for the two-point-fixed-body witness. -/
def w4pts : List BikePoint :=
  [⟨"p1", "free", 0, 0⟩, ⟨"p2", "free", 0, 5⟩, ⟨"p3", "free", 0, 10⟩,
   ⟨"p4", "free", 0, 15⟩]

/-- A `fixed`-type body with two member points, plus a valid shock. -/
def w4bds : List RigidBody :=
  [⟨"fx", ["p1", "p2"], some "fixed", false, none, none⟩,
   ⟨"sh", ["p3", "p4"], some "shock", false, none, some 2⟩]

/-- Two points at distance `1e-10`, below the `1e-9` epsilon. -/
def c8pts : List BikePoint :=
  [⟨"p1", "fixed", 0, 0⟩, ⟨"p2", "free", 1 / 10000000000, 0⟩]

/-- A shock across the `1e-10`-long segment of `c8pts`. -/
def c8bds : List RigidBody := [⟨"sh", ["p1", "p2"], some "shock", false, none, some 1⟩]

/-- The step-record list produced by the first `m` iterations of the
sweep loop of `_solve_with_edges`, starting from the initial coordinates
`(x0, y0)`.  `solve_with_edges` returns `sweepSteps … (ns + 1)`. -/
def sweepSteps (hyp : ℚ → ℚ → ℚ) (pts : List BikePoint) (edges : List LinkEdge)
    (fixed : List Bool) (rai : Option ℕ) (ry0 : Option ℚ) (dei : ℕ)
    (dL0 dstroke : ℚ) (ns iters : ℕ) (x0 y0 : List ℚ) (m : ℕ) : List SolverStep :=
  ((List.range m).foldl (solveStep hyp pts edges fixed rai ry0 dei dL0 dstroke ns iters)
    (x0, y0, [])).2.2

/-! ### Generic list and fold helpers -/

theorem getD_set_of_ne {α : Type} (l : List α) (i j : ℕ) (v d : α) (h : i ≠ j) :
    (l.set i v).getD j d = l.getD j d := by
  simp [List.getD_eq_getElem?_getD, List.getElem?_set, h]

theorem set_getD_self {α : Type} (l : List α) (i : ℕ) (d : α) :
    l.set i (l.getD i d) = l := by
  induction l generalizing i with
  | nil => simp
  | cons a t ih =>
    cases i with
    | zero => simp [List.getD]
    | succ n => simpa [List.getD] using ih n

theorem foldl_inv {α β : Type} (f : β → α → β) (P : β → Prop) (l : List α) (s : β)
    (hstep : ∀ s a, a ∈ l → P s → P (f s a)) (hs : P s) : P (l.foldl f s) := by
  induction l generalizing s with
  | nil => exact hs
  | cons a t ih =>
    exact ih (f s a) (fun s b hb => hstep s b (List.mem_cons_of_mem a hb))
      (hstep s a (List.mem_cons_self a t) hs)

theorem iterate_inv {β : Type} (f : β → β) (P : β → Prop) (n : ℕ) (s : β)
    (hstep : ∀ s, P s → P (f s)) (hs : P s) : P (f^[n] s) := by
  induction n generalizing s with
  | zero => exact hs
  | succ m ih => rw [Function.iterate_succ_apply]; exact ih (f s) (hstep s hs)

theorem foldl_id {α β : Type} (f : β → α → β) (l : List α) (s : β)
    (h : ∀ a ∈ l, f s a = s) : l.foldl f s = s := by
  induction l with
  | nil => rfl
  | cons a t ih =>
    rw [List.foldl_cons, h a (List.mem_cons_self a t)]
    exact ih (fun b hb => h b (List.mem_cons_of_mem a hb))

theorem exceptFold_ok_inv {σ α : Type} (f : σ → α → Except String σ) (P : σ → Prop)
    (l : List α) (s sf : σ)
    (hstep : ∀ s a s1, a ∈ l → f s a = Except.ok s1 → P s → P s1)
    (hok : exceptFold f s l = Except.ok sf) (hs : P s) : P sf := by
  induction l generalizing s with
  | nil => cases hok; exact hs
  | cons a t ih =>
    rw [exceptFold] at hok
    cases hfa : f s a with
    | error e => rw [hfa] at hok; cases hok
    | ok s1 =>
      rw [hfa] at hok
      exact ih s1
        (fun s b s2 hb => hstep s b s2 (List.mem_cons_of_mem a hb))
        hok (hstep s a s1 (List.mem_cons_self a t) hfa hs)

theorem exceptFold_bad {σ α : Type} (f : σ → α → Except String σ) (P : σ → Prop)
    (l : List α) (s : σ) (a : α) (ha : a ∈ l)
    (hstep : ∀ s b s1, b ∈ l → f s b = Except.ok s1 → P s → P s1)
    (hbad : ∀ s, P s → (f s a).isOk = false) (hs : P s) :
    (exceptFold f s l).isOk = false := by
  induction l generalizing s with
  | nil => cases ha
  | cons b t ih =>
    rw [exceptFold]
    cases hfb : f s b with
    | error e => rfl
    | ok s1 =>
      rcases List.mem_cons.mp ha with rfl | hat
      · have hbb := hbad s hs
        rw [hfb] at hbb
        simp [Except.isOk, Except.toBool] at hbb
      · exact ih s1 hat
          (fun s c s2 hc => hstep s c s2 (List.mem_cons_of_mem b hc))
          (hstep s b s1 (List.mem_cons_self b t) hfb hs)

theorem getLast?_eq_getD {α : Type} [Inhabited α] (l : List α) (h : l ≠ []) :
    l.getLast? = some (l.getD (l.length - 1) default) := by
  have hl : l.length - 1 < l.length :=
    Nat.sub_lt (List.length_pos.mpr h) Nat.one_pos
  rw [List.getLast?_eq_getElem?, List.getD_eq_getElem?_getD,
    List.getElem?_eq_getElem hl]
  rfl

theorem exceptFold_isOk_false_of_bad {σ α : Type} (f : σ → α → Except String σ)
    (l : List α) (s : σ) (a : α) (ha : a ∈ l)
    (hbad : ∀ s, (f s a).isOk = false) :
    (exceptFold f s l).isOk = false :=
  exceptFold_bad f (fun _ => True) l s a ha (fun _ _ _ _ _ _ => trivial)
    (fun s _ => hbad s) trivial

/-! ### Positions map helpers -/

theorem positions_getElem? (pts : List BikePoint) (x y : List ℚ) (i : ℕ) :
    (pts.enum.map (fun ip => (ip.2.id, x.getD ip.1 0, y.getD ip.1 0)))[i]? =
      pts[i]?.map (fun p => (p.id, x.getD i 0, y.getD i 0)) := by
  rw [List.getElem?_map, List.getElem?_enum]
  cases pts[i]? <;> rfl

theorem positions_getD (pts : List BikePoint) (x y : List ℚ) (i : ℕ)
    (h : i < pts.length) :
    (pts.enum.map (fun ip => (ip.2.id, x.getD ip.1 0, y.getD ip.1 0))).getD i default =
      ((pts.getD i default).id, x.getD i 0, y.getD i 0) := by
  simp [List.getD_eq_getElem?_getD, positions_getElem?, List.getElem?_eq_getElem h]

theorem positions_initial (pts : List BikePoint) :
    pts.enum.map (fun ip => (ip.2.id, (pts.map (fun p => p.x)).getD ip.1 0,
      (pts.map (fun p => p.y)).getD ip.1 0)) =
    pts.map (fun p => (p.id, p.x, p.y)) := by
  apply List.ext_getElem?
  intro n
  rw [positions_getElem?, List.getElem?_map]
  cases h : pts[n]? with
  | none => rfl
  | some p =>
    simp [List.getD_eq_getElem?_getD, List.getElem?_map, h]

/-! ### Solver lemmas -/

theorem getD_map_field {α β : Type} [Inhabited α] (l : List α) (f : α → β) (d : β)
    (i : ℕ) (h : i < l.length) : (l.map f).getD i d = f (l.getD i default) := by
  simp [List.getD_eq_getElem?_getD, List.getElem?_map, List.getElem?_eq_getElem h]

theorem strokeAt_zero (d : ℚ) (ns : ℕ) : strokeAt d ns 0 = 0 := by
  simp [strokeAt]

/-- A point whose fixed flag is set is never written by a relaxation
update: `relaxEdge` only writes at indices whose flag is unset. -/
theorem relaxEdge_fixed_inv (hyp : ℚ → ℚ → ℚ) (fixed : List Bool) (dei : ℕ)
    (tsl : ℚ) (x0 y0 : List ℚ) (st : List ℚ × List ℚ) (p : ℕ × LinkEdge)
    (h : ∀ i, fixed.getD i false = true → st.1.getD i 0 = x0.getD i 0 ∧
      st.2.getD i 0 = y0.getD i 0) :
    ∀ i, fixed.getD i false = true →
      (relaxEdge hyp fixed dei tsl st p).1.getD i 0 = x0.getD i 0 ∧
      (relaxEdge hyp fixed dei tsl st p).2.getD i 0 = y0.getD i 0 := by
  intro i hi
  obtain ⟨hx, hy⟩ := h i hi
  have hia : fixed.getD p.2.ia false = false → p.2.ia ≠ i := by
    intro hf he
    rw [he, hi] at hf
    cases hf
  have hib : fixed.getD p.2.ib false = false → p.2.ib ≠ i := by
    intro hf he
    rw [he, hi] at hf
    cases hf
  unfold relaxEdge
  cases hfa : fixed.getD p.2.ia false <;> cases hfb : fixed.getD p.2.ib false <;>
    simp only [hfa, hfb, Bool.true_and, Bool.false_and, Bool.and_self, Bool.not_true,
      Bool.not_false, Bool.and_true, Bool.and_false, if_true, if_false, Bool.true_eq_false,
      Bool.false_eq_true, ite_true, ite_false]
  · constructor
    · rw [getD_set_of_ne _ _ _ _ _ (hib hfb), getD_set_of_ne _ _ _ _ _ (hia hfa)]
      exact hx
    · rw [getD_set_of_ne _ _ _ _ _ (hib hfb), getD_set_of_ne _ _ _ _ _ (hia hfa)]
      exact hy
  · constructor
    · rw [getD_set_of_ne _ _ _ _ _ (hia hfa)]
      exact hx
    · rw [getD_set_of_ne _ _ _ _ _ (hia hfa)]
      exact hy
  · constructor
    · rw [getD_set_of_ne _ _ _ _ _ (hib hfb)]
      exact hx
    · rw [getD_set_of_ne _ _ _ _ _ (hib hfb)]
      exact hy
  · exact ⟨hx, hy⟩

/-- The fractional correction along an edge vanishes when the measured
distance equals the rest length (including the degenerate zero case, where
the difference vector itself is zero). -/
theorem relax_corr_zero (hyp : ℚ → ℚ → ℚ)
    (hz : ∀ a b : ℚ, hyp a b = 0 → a = 0 ∧ b = 0) (L dx dy : ℚ)
    (hsat : hyp dx dy = L) :
    dx * ((relaxDivisor (hyp dx dy) - L) / relaxDivisor (hyp dx dy)) = 0 ∧
    dy * ((relaxDivisor (hyp dx dy) - L) / relaxDivisor (hyp dx dy)) = 0 := by
  by_cases h0 : hyp dx dy = 0
  · obtain ⟨hdx0, hdy0⟩ := hz _ _ h0
    rw [hdx0, hdy0]
    exact ⟨zero_mul _, zero_mul _⟩
  · rw [relaxDivisor, if_neg h0, hsat, sub_self, zero_div, mul_zero, mul_zero]
    exact ⟨rfl, rfl⟩

/-- If an edge's current endpoint distance equals its target length, the
relaxation update leaves the coordinate lists unchanged.  The degenerate
zero-distance case also leaves them unchanged because the correction is
directed along the (zero) difference vector; definiteness of the distance
function (`hz`) identifies that case. -/
theorem relaxEdge_id (hyp : ℚ → ℚ → ℚ) (fixed : List Bool) (dei : ℕ) (tsl : ℚ)
    (x y : List ℚ) (p : ℕ × LinkEdge)
    (hz : ∀ a b : ℚ, hyp a b = 0 → a = 0 ∧ b = 0)
    (hsat : hyp (x.getD p.2.ib 0 - x.getD p.2.ia 0)
      (y.getD p.2.ib 0 - y.getD p.2.ia 0) = p.2.L0)
    (htarget : p.1 = dei ∧ p.2.is_shock = true → pymax (1 / 1000000) tsl = p.2.L0) :
    relaxEdge hyp fixed dei tsl (x, y) p = (x, y) := by
  have hTL : (if p.1 = dei ∧ p.2.is_shock = true then pymax (1 / 1000000) tsl else p.2.L0)
      = p.2.L0 := by
    by_cases hc : p.1 = dei ∧ p.2.is_shock = true
    · rw [if_pos hc]
      exact htarget hc
    · rw [if_neg hc]
  obtain ⟨kx, ky⟩ := relax_corr_zero hyp hz p.2.L0 _ _ hsat
  unfold relaxEdge
  dsimp only
  rw [hTL]
  cases hfa : fixed.getD p.2.ia false <;> cases hfb : fixed.getD p.2.ib false <;>
    simp only [hfa, hfb, Bool.true_and, Bool.false_and, Bool.and_self, Bool.not_true,
      Bool.not_false, Bool.and_true, Bool.and_false, if_true, if_false, ite_true,
      ite_false, Bool.false_eq_true, kx, ky, zero_mul, mul_zero, add_zero, sub_zero,
      set_getD_self]

theorem solve_with_edges_steps (hyp : ℚ → ℚ → ℚ) (pts : List BikePoint)
    (edges : List LinkEdge) (fixed : List Bool) (rai : Option ℕ) (dei : ℕ)
    (dL0 dstroke : ℚ) (n it : ℤ) :
    (solve_with_edges hyp pts edges fixed rai dei dL0 dstroke n it).steps =
      sweepSteps hyp pts edges fixed rai
        (rai.map fun ri => (pts.map (fun p => p.y)).getD ri 0) dei dL0 dstroke
        ((pymaxI 1 n).toNat) ((pymaxI 1 it).toNat)
        (pts.map fun p => p.x) (pts.map fun p => p.y)
        ((pymaxI 1 n).toNat + 1) := rfl

/-- One sweep-loop iteration appends exactly one record, whose bookkeeping
fields are determined by the step index (and by the previous record for
the leverage ratio). -/
theorem solveStep_append (hyp : ℚ → ℚ → ℚ) (pts : List BikePoint)
    (edges : List LinkEdge) (fixed : List Bool) (rai : Option ℕ) (ry0 : Option ℚ)
    (dei : ℕ) (dL0 dstroke : ℚ) (ns iters : ℕ)
    (st : List ℚ × List ℚ × List SolverStep) (k : ℕ) :
    ∃ stp : SolverStep,
      (solveStep hyp pts edges fixed rai ry0 dei dL0 dstroke ns iters st k).2.2 =
        st.2.2 ++ [stp] ∧
      stp.step_index = k ∧
      stp.shock_stroke = strokeAt dstroke ns k ∧
      stp.rear_travel.isSome = (rai.isSome && ry0.isSome) ∧
      (k = 0 → stp.leverage_ratio = none) ∧
      (∀ j prev, k = j + 1 → st.2.2.getLast? = some prev →
        prev.rear_travel.isSome = true → rai.isSome = true → ry0.isSome = true →
        1 / 1000000000 < pyabs (strokeAt dstroke ns k - prev.shock_stroke) →
        stp.leverage_ratio.isSome = true) ∧
      (rai = none → stp.leverage_ratio = none) := by
  unfold solveStep
  dsimp only
  refine ⟨_, rfl, rfl, rfl, ?_, ?_, ?_, ?_⟩
  · cases rai <;> cases ry0 <;> rfl
  · intro h
    subst h
    rfl
  · intro j prev hk hlast hprevsome hrai hry0 hds
    subst hk
    obtain ⟨ri, hri⟩ := Option.isSome_iff_exists.mp hrai
    obtain ⟨ry, hry⟩ := Option.isSome_iff_exists.mp hry0
    subst hri
    subst hry
    obtain ⟨prt, hprt⟩ := Option.isSome_iff_exists.mp hprevsome
    simp only [hlast, hprt, Nat.succ_pos, if_true, if_pos, Option.isSome_some]
    rw [if_pos hds]
    rfl
  · intro hrai
    subst hrai
    exact ite_self none

/-- Bookkeeping invariant of the sweep: after `m` loop iterations there
are exactly `m` records, with consecutive step indices, the exact linear
stroke schedule, a rear-travel value exactly when a rear axle was
designated, and a defined leverage ratio from step 1 on whenever a rear
axle exists and the stroke increment clears the `1e-9` guard. -/
theorem sweep_spec (hyp : ℚ → ℚ → ℚ) (pts : List BikePoint)
    (edges : List LinkEdge) (fixed : List Bool) (rai : Option ℕ) (ry0 : Option ℚ)
    (dei : ℕ) (dL0 dstroke : ℚ) (ns iters : ℕ) (x0 y0 : List ℚ) (m : ℕ) :
    (sweepSteps hyp pts edges fixed rai ry0 dei dL0 dstroke ns iters x0 y0 m).length = m ∧
    ∀ k, k < m →
      ((sweepSteps hyp pts edges fixed rai ry0 dei dL0 dstroke ns iters x0 y0 m).getD k
        default).step_index = k ∧
      ((sweepSteps hyp pts edges fixed rai ry0 dei dL0 dstroke ns iters x0 y0 m).getD k
        default).shock_stroke = strokeAt dstroke ns k ∧
      ((sweepSteps hyp pts edges fixed rai ry0 dei dL0 dstroke ns iters x0 y0 m).getD k
        default).rear_travel.isSome = (rai.isSome && ry0.isSome) ∧
      (k = 0 →
        ((sweepSteps hyp pts edges fixed rai ry0 dei dL0 dstroke ns iters x0 y0 m).getD k
          default).leverage_ratio = none) ∧
      (∀ j, k = j + 1 → rai.isSome = true → ry0.isSome = true →
        1 / 1000000000 < pyabs (strokeAt dstroke ns k - strokeAt dstroke ns j) →
        ((sweepSteps hyp pts edges fixed rai ry0 dei dL0 dstroke ns iters x0 y0 m).getD k
          default).leverage_ratio.isSome = true) ∧
      (rai = none →
        ((sweepSteps hyp pts edges fixed rai ry0 dei dL0 dstroke ns iters x0 y0 m).getD k
          default).leverage_ratio = none) := by
  induction m with
  | zero =>
    refine ⟨rfl, ?_⟩
    intro k hk
    cases hk
  | succ m ih =>
    obtain ⟨ihlen, ihprop⟩ := ih
    obtain ⟨stp, hstp, h1, h2, h3, h4, h5, h6⟩ :=
      solveStep_append hyp pts edges fixed rai ry0 dei dL0 dstroke ns iters
        ((List.range m).foldl
          (solveStep hyp pts edges fixed rai ry0 dei dL0 dstroke ns iters) (x0, y0, [])) m
    have hsucc : sweepSteps hyp pts edges fixed rai ry0 dei dL0 dstroke ns iters x0 y0
        (m + 1) =
        sweepSteps hyp pts edges fixed rai ry0 dei dL0 dstroke ns iters x0 y0 m ++ [stp] := by
      rw [sweepSteps, List.range_succ, List.foldl_append, List.foldl_cons, List.foldl_nil]
      exact hstp
    have hlen1 : (sweepSteps hyp pts edges fixed rai ry0 dei dL0 dstroke ns iters x0 y0
        (m + 1)).length = m + 1 := by
      rw [hsucc, List.length_append, ihlen]
      rfl
    refine ⟨hlen1, ?_⟩
    intro k hk
    rcases Nat.lt_succ_iff_lt_or_eq.mp hk with hk1 | rfl
    · have hgd : ∀ d : SolverStep,
          (sweepSteps hyp pts edges fixed rai ry0 dei dL0 dstroke ns iters x0 y0
            (m + 1)).getD k d =
          (sweepSteps hyp pts edges fixed rai ry0 dei dL0 dstroke ns iters x0 y0 m).getD
            k d := by
        intro d
        rw [hsucc]
        exact List.getD_append _ _ d k (by rw [ihlen]; exact hk1)
      rw [hgd]
      exact ihprop k hk1
    · have hgd : (sweepSteps hyp pts edges fixed rai ry0 dei dL0 dstroke ns iters x0 y0
          (k + 1)).getD k default = stp := by
        rw [hsucc]
        rw [List.getD_append_right _ _ default k (by rw [ihlen])]
        rw [ihlen]
        simp
      rw [hgd]
      refine ⟨h1, h2, h3, h4, ?_, h6⟩
      intro j hkj hrai hry0 hds
      subst hkj
      have hml : 0 < (sweepSteps hyp pts edges fixed rai ry0 dei dL0 dstroke ns iters
          x0 y0 (j + 1)).length := by
        rw [ihlen]
        exact Nat.succ_pos j
      have hne : sweepSteps hyp pts edges fixed rai ry0 dei dL0 dstroke ns iters
          x0 y0 (j + 1) ≠ [] := List.ne_nil_of_length_pos hml
      have hlast : (sweepSteps hyp pts edges fixed rai ry0 dei dL0 dstroke ns iters
          x0 y0 (j + 1)).getLast? = some
          ((sweepSteps hyp pts edges fixed rai ry0 dei dL0 dstroke ns iters
            x0 y0 (j + 1)).getD j default) := by
        have := getLast?_eq_getD _ hne
        rwa [ihlen, Nat.add_sub_cancel] at this
      obtain ⟨p1, p2, p3, p4, p5, -⟩ := ihprop j (Nat.lt_succ_self j)
      refine h5 j _ rfl hlast ?_ hrai hry0 ?_
      · rw [p3, hrai, hry0]
        rfl
      · rwa [p2]

/-- The first record of the sweep is unaffected by later loop iterations. -/
theorem sweep_getD0_stable (hyp : ℚ → ℚ → ℚ) (pts : List BikePoint)
    (edges : List LinkEdge) (fixed : List Bool) (rai : Option ℕ) (ry0 : Option ℚ)
    (dei : ℕ) (dL0 dstroke : ℚ) (ns iters : ℕ) (x0 y0 : List ℚ) (m : ℕ) :
    (sweepSteps hyp pts edges fixed rai ry0 dei dL0 dstroke ns iters x0 y0 (m + 1)).getD 0
      default =
    (sweepSteps hyp pts edges fixed rai ry0 dei dL0 dstroke ns iters x0 y0 1).getD 0
      default := by
  induction m with
  | zero => rfl
  | succ m ih =>
    obtain ⟨stp, hstp, -, -, -, -, -, -⟩ :=
      solveStep_append hyp pts edges fixed rai ry0 dei dL0 dstroke ns iters
        ((List.range (m + 1)).foldl
          (solveStep hyp pts edges fixed rai ry0 dei dL0 dstroke ns iters) (x0, y0, [])) (m + 1)
    have hsucc : sweepSteps hyp pts edges fixed rai ry0 dei dL0 dstroke ns iters x0 y0
        (m + 2) =
        sweepSteps hyp pts edges fixed rai ry0 dei dL0 dstroke ns iters x0 y0 (m + 1)
          ++ [stp] := by
      rw [sweepSteps, List.range_succ, List.foldl_append, List.foldl_cons, List.foldl_nil]
      exact hstp
    rw [hsucc, List.getD_append _ _ default 0
      (by rw [(sweep_spec hyp pts edges fixed rai ry0 dei dL0 dstroke ns iters x0 y0
        (m + 1)).1]; exact Nat.succ_pos m), ih]

/-- With every constraint already satisfied by the initial geometry (and a
driver target that agrees with the driver rest length), the pose recorded
at step 0 is the initial pose. -/
theorem sweep_step0_points (hyp : ℚ → ℚ → ℚ) (pts : List BikePoint)
    (edges : List LinkEdge) (fixed : List Bool) (rai : Option ℕ) (ry0 : Option ℚ)
    (dei : ℕ) (dL0 dstroke : ℚ) (ns iters : ℕ) (m : ℕ)
    (hz : ∀ a b : ℚ, hyp a b = 0 → a = 0 ∧ b = 0)
    (hsat : ∀ e ∈ edges,
      hyp ((pts.map (fun p => p.x)).getD e.ib 0 - (pts.map (fun p => p.x)).getD e.ia 0)
        ((pts.map (fun p => p.y)).getD e.ib 0 - (pts.map (fun p => p.y)).getD e.ia 0)
        = e.L0)
    (htarget : ∀ p ∈ edges.enum, p.1 = dei ∧ p.2.is_shock = true →
      pymax (1 / 1000000) (dL0 - strokeAt dstroke ns 0) = p.2.L0) :
    ((sweepSteps hyp pts edges fixed rai ry0 dei dL0 dstroke ns iters
      (pts.map (fun p => p.x)) (pts.map (fun p => p.y)) (m + 1)).getD 0 default).points =
    pts.map (fun p => (p.id, p.x, p.y)) := by
  have hpass : relaxPass hyp fixed dei (dL0 - strokeAt dstroke ns 0) edges
      (pts.map (fun p => p.x), pts.map (fun p => p.y)) =
      (pts.map (fun p => p.x), pts.map (fun p => p.y)) := by
    rw [relaxPass]
    apply foldl_id
    intro p hp
    exact relaxEdge_id hyp fixed dei (dL0 - strokeAt dstroke ns 0) _ _ p hz
      (hsat p.2 (List.snd_mem_of_mem_enum hp)) (htarget p hp)
  rw [sweep_getD0_stable]
  show ((solveStep hyp pts edges fixed rai ry0 dei dL0 dstroke ns iters
    (pts.map (fun p => p.x), pts.map (fun p => p.y), []) 0).2.2.getD 0 default).points = _
  unfold solveStep
  dsimp only
  rw [Function.iterate_fixed hpass iters]
  exact positions_initial pts

/-- One full relaxation pass never moves a point whose fixed flag is set. -/
theorem relaxPass_fixed_inv (hyp : ℚ → ℚ → ℚ) (fixed : List Bool) (dei : ℕ)
    (tsl : ℚ) (edges : List LinkEdge) (x0 y0 : List ℚ) (st : List ℚ × List ℚ)
    (h : ∀ i, fixed.getD i false = true → st.1.getD i 0 = x0.getD i 0 ∧
      st.2.getD i 0 = y0.getD i 0) :
    ∀ i, fixed.getD i false = true →
      (relaxPass hyp fixed dei tsl edges st).1.getD i 0 = x0.getD i 0 ∧
      (relaxPass hyp fixed dei tsl edges st).2.getD i 0 = y0.getD i 0 := by
  rw [relaxPass]
  exact foldl_inv _
    (fun st => ∀ i, fixed.getD i false = true →
      st.1.getD i 0 = x0.getD i 0 ∧ st.2.getD i 0 = y0.getD i 0)
    edges.enum st
    (fun s p _ hs => relaxEdge_fixed_inv hyp fixed dei tsl x0 y0 s p hs) h

/-- Fixed points are recorded at their initial coordinates in every step
of the sweep. -/
theorem sweep_fixed_points (hyp : ℚ → ℚ → ℚ) (pts : List BikePoint)
    (edges : List LinkEdge) (fixed : List Bool) (rai : Option ℕ) (ry0 : Option ℚ)
    (dei : ℕ) (dL0 dstroke : ℚ) (ns iters : ℕ) (m : ℕ) :
    ∀ stp ∈ sweepSteps hyp pts edges fixed rai ry0 dei dL0 dstroke ns iters
      (pts.map (fun p => p.x)) (pts.map (fun p => p.y)) m,
      ∀ i, i < pts.length → fixed.getD i false = true →
        stp.points.getD i default =
          ((pts.getD i default).id, (pts.getD i default).x, (pts.getD i default).y) := by
  intro stp hstp i hi hfix
  have main := foldl_inv
    (solveStep hyp pts edges fixed rai ry0 dei dL0 dstroke ns iters)
    (fun st =>
      (∀ i, fixed.getD i false = true →
        st.1.getD i 0 = (pts.map (fun p => p.x)).getD i 0 ∧
        st.2.1.getD i 0 = (pts.map (fun p => p.y)).getD i 0) ∧
      ∀ stp ∈ st.2.2, ∀ i, i < pts.length → fixed.getD i false = true →
        stp.points.getD i default =
          ((pts.getD i default).id, (pts.getD i default).x, (pts.getD i default).y))
    (List.range m) (pts.map (fun p => p.x), pts.map (fun p => p.y), [])
    ?_ ⟨fun _ _ => ⟨rfl, rfl⟩, by intro s hs; cases hs⟩
  · exact main.2 stp hstp i hi hfix
  · intro s a _ hP
    obtain ⟨hcoord, hsteps⟩ := hP
    have hxy := iterate_inv
      (relaxPass hyp fixed dei (dL0 - strokeAt dstroke ns a) edges)
      (fun st => ∀ i, fixed.getD i false = true →
        st.1.getD i 0 = (pts.map (fun p => p.x)).getD i 0 ∧
        st.2.getD i 0 = (pts.map (fun p => p.y)).getD i 0)
      iters (s.1, s.2.1)
      (fun st hst => relaxPass_fixed_inv hyp fixed dei _ edges _ _ st hst)
      hcoord
    unfold solveStep
    dsimp only
    constructor
    · exact hxy
    · intro stp2 hmem i2 hi2 hfix2
      rcases List.mem_append.mp hmem with hold | hnew
      · exact hsteps stp2 hold i2 hi2 hfix2
      · rw [List.mem_singleton.mp hnew]
        dsimp only
        rw [positions_getD pts _ _ i2 hi2]
        obtain ⟨hgx, hgy⟩ := hxy i2 hfix2
        rw [hgx, hgy, getD_map_field pts _ 0 i2 hi2, getD_map_field pts _ 0 i2 hi2]

/-! ### Builder lemmas -/

theorem processSeg_char (hyp : ℚ → ℚ → ℚ) (pts : List BikePoint) (body : RigidBody)
    (st : BState) (seg : String × String) (st1 : BState)
    (h : processSeg hyp pts (pts.map (fun p => p.x)) (pts.map (fun p => p.y)) body st seg
      = Except.ok st1) :
    st1.fixed = st.fixed ∧
    st1.edges = st.edges ++ [specEdge hyp pts body seg] ∧
    (body.type = some "shock" → st.driver = none ∧ ∃ strk, body.stroke = some strk ∧
      st1.driver = some (st.edges.length, (specEdge hyp pts body seg).L0, strk)) ∧
    (¬ body.type = some "shock" → st1.driver = st.driver) := by
  unfold processSeg at h
  cases hA : pindex pts seg.1 with
  | none => rw [hA] at h; simp at h
  | some ia =>
    cases hB : pindex pts seg.2 with
    | none => rw [hA, hB] at h; simp at h
    | some ib =>
      rw [hA, hB] at h
      dsimp only at h
      by_cases hty : body.type = some "shock"
      · rw [if_pos hty] at h
        cases hstroke : body.stroke with
        | none => rw [hstroke] at h; simp at h
        | some strk =>
          rw [hstroke] at h
          dsimp only at h
          cases hdrv : st.driver.isSome with
          | true => rw [hdrv] at h; simp at h
          | false =>
            rw [hdrv] at h
            cases h
            refine ⟨rfl, ?_, ?_, fun hc => absurd hty hc⟩
            · rw [specEdge, if_pos hty]
              dsimp only
              rw [hA, hB]
              rfl
            · intro _
              refine ⟨Option.not_isSome_iff_eq_none.mp (by rw [hdrv]; exact Bool.false_ne_true), strk, rfl, ?_⟩
              rw [specEdge, if_pos hty]
              dsimp only
              rw [hA, hB]
              simp [List.length_append]
      · rw [if_neg hty] at h
        cases h
        refine ⟨rfl, ?_, fun hc => absurd hc hty, fun _ => rfl⟩
        rw [specEdge, if_neg hty]
        dsimp only
        rw [hA, hB]
        rfl

theorem processSeg_unknown_bad (hyp : ℚ → ℚ → ℚ) (pts : List BikePoint) (x0 y0 : List ℚ)
    (body : RigidBody) (seg : String × String)
    (h : pindex pts seg.1 = none ∨ pindex pts seg.2 = none) (st : BState) :
    (processSeg hyp pts x0 y0 body st seg).isOk = false := by
  unfold processSeg
  rcases h with h1 | h2
  · rw [h1]
    rfl
  · rw [h2]
    cases pindex pts seg.1 <;> rfl

theorem processSeg_nostroke_bad (hyp : ℚ → ℚ → ℚ) (pts : List BikePoint) (x0 y0 : List ℚ)
    (body : RigidBody) (seg : String × String) (hty : body.type = some "shock")
    (hstroke : body.stroke = none) (st : BState) :
    (processSeg hyp pts x0 y0 body st seg).isOk = false := by
  unfold processSeg
  cases pindex pts seg.1 with
  | none => rfl
  | some ia =>
    cases pindex pts seg.2 with
    | none => rfl
    | some ib =>
      dsimp only
      rw [if_pos hty, hstroke]
      rfl

theorem processSeg_driver_some_bad (hyp : ℚ → ℚ → ℚ) (pts : List BikePoint)
    (x0 y0 : List ℚ) (body : RigidBody) (seg : String × String)
    (hty : body.type = some "shock") (st : BState) (hdrv : st.driver.isSome = true) :
    (processSeg hyp pts x0 y0 body st seg).isOk = false := by
  unfold processSeg
  cases pindex pts seg.1 with
  | none => rfl
  | some ia =>
    cases pindex pts seg.2 with
    | none => rfl
    | some ib =>
      dsimp only
      rw [if_pos hty]
      cases body.stroke with
      | none => rfl
      | some strk =>
        dsimp only
        rw [hdrv]
        rfl

theorem getD_set_true (l : List Bool) (j i : ℕ) (hi : l.getD i false = true) :
    (l.set j true).getD i false = true := by
  by_cases hji : j = i
  · subst hji
    have hlen : j < l.length := by
      by_contra hlen
      rw [List.getD_eq_getElem?_getD, List.getElem?_eq_none (le_of_not_lt hlen)] at hi
      cases hi
    simp [List.getD_eq_getElem?_getD, List.getElem?_set, hlen]
  · rw [getD_set_of_ne _ _ _ _ _ hji]
    exact hi

theorem markFixed_edges_driver (pts : List BikePoint) (st : BState) (pids : List String)
    (st1 : BState) (h : markFixed pts st pids = Except.ok st1) :
    st1.edges = st.edges ∧ st1.driver = st.driver := by
  refine exceptFold_ok_inv _ (fun s => s.edges = st.edges ∧ s.driver = st.driver)
    pids st st1 ?_ h ⟨rfl, rfl⟩
  intro s pid s1 _ hf hP
  cases hq : pindex pts pid with
  | none => rw [hq] at hf; cases hf
  | some j =>
    rw [hq] at hf
    cases hf
    exact hP

theorem markFixed_flag_mono (pts : List BikePoint) (st : BState) (pids : List String)
    (st1 : BState) (i : ℕ) (h : markFixed pts st pids = Except.ok st1)
    (hi : st.fixed.getD i false = true) : st1.fixed.getD i false = true := by
  refine exceptFold_ok_inv _ (fun s => s.fixed.getD i false = true)
    pids st st1 ?_ h hi
  intro s pid s1 _ hf hP
  cases hq : pindex pts pid with
  | none => rw [hq] at hf; cases hf
  | some j =>
    rw [hq] at hf
    cases hf
    exact getD_set_true _ _ _ hP

theorem markFixed_len (pts : List BikePoint) (st : BState) (pids : List String)
    (st1 : BState) (h : markFixed pts st pids = Except.ok st1) :
    st1.fixed.length = st.fixed.length := by
  refine exceptFold_ok_inv _ (fun s => s.fixed.length = st.fixed.length)
    pids st st1 ?_ h rfl
  intro s pid s1 _ hf hP
  cases hq : pindex pts pid with
  | none => rw [hq] at hf; cases hf
  | some j =>
    rw [hq] at hf
    cases hf
    rw [← hP]
    exact List.length_set s.fixed j true

theorem markFixed_sets (pts : List BikePoint) : ∀ (pids : List String) (st st1 : BState),
    markFixed pts st pids = Except.ok st1 → ∀ pid : String, pid ∈ pids →
    ∀ i : ℕ, pindex pts pid = some i → i < st.fixed.length →
    st1.fixed.getD i false = true := by
  intro pids
  induction pids with
  | nil =>
    intro st st1 _ pid hm
    cases hm
  | cons q t ih =>
    intro st st1 h pid hm i hpi hlen
    rw [markFixed, exceptFold] at h
    cases hq : pindex pts q with
    | none => rw [hq] at h; cases h
    | some j =>
      rw [hq] at h
      dsimp only at h
      rcases List.mem_cons.mp hm with rfl | hmt
      · rw [hpi] at hq
        cases hq
        refine markFixed_flag_mono pts _ t st1 i h ?_
        show ((st.fixed.set i true).getD i false) = true
        simp [List.getD_eq_getElem?_getD, List.getElem?_set, hlen]
      · exact ih _ st1 h pid hmt i hpi
          (by rw [List.length_set]; exact hlen)

theorem markFixed_unknown_bad (pts : List BikePoint) (pids : List String) (pid : String)
    (hm : pid ∈ pids) (hpi : pindex pts pid = none) (st : BState) :
    (markFixed pts st pids).isOk = false := by
  refine exceptFold_isOk_false_of_bad _ pids st pid hm ?_
  intro s
  show (match pindex pts pid with
    | none => (Except.error "RigidBody references unknown point id." : Except String BState)
    | some i => Except.ok ⟨s.edges, s.fixed.set i true, s.driver⟩).isOk = false
  rw [hpi]
  rfl

theorem mem_zip_of_mem : ∀ (pids : List String), 2 ≤ pids.length →
    ∀ pid ∈ pids, ∃ pr ∈ pids.zip pids.tail, pr.1 = pid ∨ pr.2 = pid := by
  intro pids
  induction pids with
  | nil => intro h2; cases h2
  | cons a t ih =>
    intro h2 pid hm
    cases t with
    | nil => simp at h2
    | cons b t2 =>
      rcases List.mem_cons.mp hm with rfl | hmt
      · exact ⟨(pid, b), List.mem_cons_self _ _, Or.inl rfl⟩
      · cases t2 with
        | nil =>
          have hb : pid = b := by simpa using hmt
          subst hb
          exact ⟨(a, pid), List.mem_cons_self _ _, Or.inr rfl⟩
        | cons c t3 =>
          obtain ⟨pr, hpr, hside⟩ := ih (by simp) pid hmt
          exact ⟨pr, List.mem_cons_of_mem _ hpr, hside⟩

theorem mem_segPairs_of_mem_zip (body : RigidBody) (pr : String × String)
    (h : pr ∈ body.point_ids.zip body.point_ids.tail) : pr ∈ segPairs body := by
  rw [segPairs]
  exact List.mem_append_left _ h

theorem segPairs_ne_nil (body : RigidBody) (h2 : 2 ≤ body.point_ids.length) :
    segPairs body ≠ [] := by
  apply List.ne_nil_of_length_pos
  rw [segPairs, List.length_append]
  have hz : 0 < (body.point_ids.zip body.point_ids.tail).length := by
    rw [List.length_zip, List.length_tail]
    omega
  omega

theorem exceptFold_cons_ok {σ α : Type} (f : σ → α → Except String σ) (a : α)
    (t : List α) (s sf : σ) (h : exceptFold f s (a :: t) = Except.ok sf) :
    ∃ s1, f s a = Except.ok s1 ∧ exceptFold f s1 t = Except.ok sf := by
  rw [exceptFold] at h
  cases hf : f s a with
  | error e => rw [hf] at h; cases h
  | ok s1 =>
    rw [hf] at h
    exact ⟨s1, rfl, h⟩

theorem processSeg_driver_facts (hyp : ℚ → ℚ → ℚ) (pts : List BikePoint)
    (x0 y0 : List ℚ) (body : RigidBody) (st : BState) (seg : String × String)
    (st1 : BState) (h : processSeg hyp pts x0 y0 body st seg = Except.ok st1) :
    (¬ body.type = some "shock" → st1.driver = st.driver) ∧
    (body.type = some "shock" → st.driver = none ∧ st1.driver.isSome = true) ∧
    st1.fixed = st.fixed := by
  unfold processSeg at h
  cases hA : pindex pts seg.1 with
  | none => rw [hA] at h; simp at h
  | some ia =>
    cases hB : pindex pts seg.2 with
    | none => rw [hA, hB] at h; simp at h
    | some ib =>
      rw [hA, hB] at h
      dsimp only at h
      by_cases hty : body.type = some "shock"
      · rw [if_pos hty] at h
        cases hstroke : body.stroke with
        | none => rw [hstroke] at h; simp at h
        | some strk =>
          rw [hstroke] at h
          dsimp only at h
          cases hdrv : st.driver.isSome with
          | true => rw [hdrv] at h; simp at h
          | false =>
            rw [hdrv] at h
            cases h
            exact ⟨fun hc => absurd hty hc,
              fun _ => ⟨Option.not_isSome_iff_eq_none.mp
                (by rw [hdrv]; exact Bool.false_ne_true), rfl⟩, rfl⟩
      · rw [if_neg hty] at h
        cases h
        exact ⟨fun _ => rfl, fun hc => absurd hc hty, rfl⟩

theorem processBody_ok_elim (hyp : ℚ → ℚ → ℚ) (pts : List BikePoint) (x0 y0 : List ℚ)
    (st : BState) (body : RigidBody) (st1 : BState)
    (h : processBody hyp pts x0 y0 st body = Except.ok st1) :
    (body.point_ids.length < 2 ∧ st1 = st) ∨
    (¬ body.point_ids.length < 2 ∧ ∃ stm : BState,
      (if body.type = some "fixed" then markFixed pts st body.point_ids
        else Except.ok st) = Except.ok stm ∧
      exceptFold (processSeg hyp pts x0 y0 body) stm (segPairs body) = Except.ok st1) := by
  unfold processBody at h
  by_cases hlen : body.point_ids.length < 2
  · rw [if_pos hlen] at h
    cases h
    exact Or.inl ⟨hlen, rfl⟩
  · rw [if_neg hlen] at h
    cases hmf : (if body.type = some "fixed" then markFixed pts st body.point_ids
        else Except.ok st) with
    | error e => rw [hmf] at h; cases h
    | ok stm =>
      rw [hmf] at h
      exact Or.inr ⟨hlen, stm, rfl, h⟩

theorem markBranch_facts (pts : List BikePoint) (st : BState) (body : RigidBody)
    (stm : BState)
    (h : (if body.type = some "fixed" then markFixed pts st body.point_ids
      else Except.ok st) = Except.ok stm) :
    stm.edges = st.edges ∧ stm.driver = st.driver ∧ stm.fixed.length = st.fixed.length ∧
    (∀ i, st.fixed.getD i false = true → stm.fixed.getD i false = true) := by
  by_cases hty : body.type = some "fixed"
  · rw [if_pos hty] at h
    obtain ⟨he, hd⟩ := markFixed_edges_driver pts st body.point_ids stm h
    exact ⟨he, hd, markFixed_len pts st body.point_ids stm h,
      fun i hi => markFixed_flag_mono pts st body.point_ids stm i h hi⟩
  · rw [if_neg hty] at h
    cases h
    exact ⟨rfl, rfl, rfl, fun _ hi => hi⟩

theorem processBody_driver_mono (hyp : ℚ → ℚ → ℚ) (pts : List BikePoint)
    (x0 y0 : List ℚ) (st : BState) (body : RigidBody) (st1 : BState)
    (h : processBody hyp pts x0 y0 st body = Except.ok st1)
    (hsome : st.driver.isSome = true) : st1.driver.isSome = true := by
  rcases processBody_ok_elim hyp pts x0 y0 st body st1 h with ⟨-, rfl⟩ | ⟨-, stm, hmf, hfold⟩
  · exact hsome
  · obtain ⟨-, hdm, -, -⟩ := markBranch_facts pts st body stm hmf
    refine exceptFold_ok_inv _ (fun s => s.driver.isSome = true) _ stm st1 ?_ hfold
      (show stm.driver.isSome = true by rw [hdm]; exact hsome)
    intro s seg s2 _ hf hP
    obtain ⟨hns, hs, -⟩ := processSeg_driver_facts hyp pts x0 y0 body s seg s2 hf
    by_cases hty : body.type = some "shock"
    · exact (hs hty).2
    · rw [hns hty]
      exact hP

theorem processBody_driver_stays_none (hyp : ℚ → ℚ → ℚ) (pts : List BikePoint)
    (x0 y0 : List ℚ) (st : BState) (body : RigidBody) (st1 : BState)
    (h : processBody hyp pts x0 y0 st body = Except.ok st1)
    (hty : ¬ body.type = some "shock") (hnone : st.driver = none) :
    st1.driver = none := by
  rcases processBody_ok_elim hyp pts x0 y0 st body st1 h with ⟨-, rfl⟩ | ⟨-, stm, hmf, hfold⟩
  · exact hnone
  · obtain ⟨-, hdm, -, -⟩ := markBranch_facts pts st body stm hmf
    refine exceptFold_ok_inv _ (fun s => s.driver = none) _ stm st1 ?_ hfold
      (show stm.driver = none by rw [hdm]; exact hnone)
    intro s seg s2 _ hf hP
    obtain ⟨hns, -, -⟩ := processSeg_driver_facts hyp pts x0 y0 body s seg s2 hf
    rw [hns hty]
    exact hP

theorem processBody_flag_mono (hyp : ℚ → ℚ → ℚ) (pts : List BikePoint)
    (x0 y0 : List ℚ) (st : BState) (body : RigidBody) (st1 : BState) (i : ℕ)
    (h : processBody hyp pts x0 y0 st body = Except.ok st1)
    (hi : st.fixed.getD i false = true) : st1.fixed.getD i false = true := by
  rcases processBody_ok_elim hyp pts x0 y0 st body st1 h with ⟨-, rfl⟩ | ⟨-, stm, hmf, hfold⟩
  · exact hi
  · obtain ⟨-, -, -, hmono⟩ := markBranch_facts pts st body stm hmf
    refine exceptFold_ok_inv _ (fun s => s.fixed.getD i false = true) _ stm st1 ?_ hfold
      (hmono i hi)
    intro s seg s2 _ hf hP
    obtain ⟨-, -, hfx⟩ := processSeg_driver_facts hyp pts x0 y0 body s seg s2 hf
    rw [hfx]
    exact hP

theorem processBody_fixed_len (hyp : ℚ → ℚ → ℚ) (pts : List BikePoint)
    (x0 y0 : List ℚ) (st : BState) (body : RigidBody) (st1 : BState)
    (h : processBody hyp pts x0 y0 st body = Except.ok st1) :
    st1.fixed.length = st.fixed.length := by
  rcases processBody_ok_elim hyp pts x0 y0 st body st1 h with ⟨-, rfl⟩ | ⟨-, stm, hmf, hfold⟩
  · rfl
  · obtain ⟨-, -, hlen, -⟩ := markBranch_facts pts st body stm hmf
    have := exceptFold_ok_inv _ (fun s => s.fixed.length = stm.fixed.length) _ stm st1 ?_
      hfold rfl
    · rw [this, hlen]
    · intro s seg s2 _ hf hP
      obtain ⟨-, -, hfx⟩ := processSeg_driver_facts hyp pts x0 y0 body s seg s2 hf
      rw [hfx]
      exact hP

theorem isQualShock_iff (body : RigidBody) : isQualShock body = true ↔
    body.type = some "shock" ∧ 2 ≤ body.point_ids.length := by
  rw [isQualShock]
  simp

theorem processBody_qualshock_driver (hyp : ℚ → ℚ → ℚ) (pts : List BikePoint)
    (x0 y0 : List ℚ) (st : BState) (body : RigidBody) (st1 : BState)
    (h : processBody hyp pts x0 y0 st body = Except.ok st1)
    (hq : isQualShock body = true) : st1.driver.isSome = true := by
  obtain ⟨hty, hlen2⟩ := (isQualShock_iff body).mp hq
  rcases processBody_ok_elim hyp pts x0 y0 st body st1 h with ⟨hlt, -⟩ | ⟨-, stm, hmf, hfold⟩
  · omega
  · obtain ⟨pr, rest, heq⟩ := List.exists_cons_of_ne_nil (segPairs_ne_nil body hlen2)
    rw [heq] at hfold
    obtain ⟨s1, hf1, hrest⟩ := exceptFold_cons_ok _ pr rest stm st1 hfold
    obtain ⟨-, hs, -⟩ := processSeg_driver_facts hyp pts x0 y0 body stm pr s1 hf1
    refine exceptFold_ok_inv _ (fun s => s.driver.isSome = true) _ s1 st1 ?_ hrest
      (hs hty).2
    intro s seg s2 _ hf hP
    obtain ⟨hns, hsk, -⟩ := processSeg_driver_facts hyp pts x0 y0 body s seg s2 hf
    by_cases hty2 : body.type = some "shock"
    · exact (hsk hty2).2
    · rw [hns hty2]
      exact hP

theorem processBody_qualshock_bad (hyp : ℚ → ℚ → ℚ) (pts : List BikePoint)
    (x0 y0 : List ℚ) (body : RigidBody) (hq : isQualShock body = true) (st : BState)
    (hsome : st.driver.isSome = true) :
    (processBody hyp pts x0 y0 st body).isOk = false := by
  obtain ⟨hty, hlen2⟩ := (isQualShock_iff body).mp hq
  unfold processBody
  rw [if_neg (by omega)]
  have htyf : ¬ body.type = some "fixed" := by
    rw [hty]
    simp
  rw [if_neg htyf]
  dsimp only
  obtain ⟨pr, rest, heq⟩ := List.exists_cons_of_ne_nil (segPairs_ne_nil body hlen2)
  have hbad := exceptFold_bad (processSeg hyp pts x0 y0 body)
    (fun s => s.driver.isSome = true) (segPairs body) st pr
    (by rw [heq]; exact List.mem_cons_self _ _)
    ?_ (fun s hP => processSeg_driver_some_bad hyp pts x0 y0 body pr hty s hP) hsome
  · cases hfold : exceptFold (processSeg hyp pts x0 y0 body) st (segPairs body) with
    | error e => rfl
    | ok sf => rw [hfold] at hbad; cases hbad
  · intro s seg s2 _ hf hP
    obtain ⟨hns, hsk, -⟩ := processSeg_driver_facts hyp pts x0 y0 body s seg s2 hf
    by_cases hty2 : body.type = some "shock"
    · exact (hsk hty2).2
    · rw [hns hty2]
      exact hP

theorem processBody_unknown_bad (hyp : ℚ → ℚ → ℚ) (pts : List BikePoint)
    (x0 y0 : List ℚ) (body : RigidBody) (hlen2 : 2 ≤ body.point_ids.length)
    (pid : String) (hm : pid ∈ body.point_ids) (hpi : pindex pts pid = none)
    (st : BState) : (processBody hyp pts x0 y0 st body).isOk = false := by
  unfold processBody
  rw [if_neg (by omega)]
  by_cases hty : body.type = some "fixed"
  · rw [if_pos hty]
    cases hmf : markFixed pts st body.point_ids with
    | error e => rfl
    | ok stm =>
      have := markFixed_unknown_bad pts body.point_ids pid hm hpi st
      rw [hmf] at this
      cases this
  · rw [if_neg hty]
    dsimp only
    obtain ⟨pr, hpr, hside⟩ := mem_zip_of_mem body.point_ids hlen2 pid hm
    have hprs : pr ∈ segPairs body := mem_segPairs_of_mem_zip body pr hpr
    have hbadseg : ∀ s : BState, (processSeg hyp pts x0 y0 body s pr).isOk = false := by
      intro s
      refine processSeg_unknown_bad hyp pts x0 y0 body pr ?_ s
      rcases hside with h1 | h2
      · exact Or.inl (by rw [h1]; exact hpi)
      · exact Or.inr (by rw [h2]; exact hpi)
    cases hfold : exceptFold (processSeg hyp pts x0 y0 body) st (segPairs body) with
    | error e => rfl
    | ok sf =>
      have := exceptFold_isOk_false_of_bad _ (segPairs body) st pr hprs hbadseg
      rw [hfold] at this
      cases this

theorem processBody_nostroke_bad (hyp : ℚ → ℚ → ℚ) (pts : List BikePoint)
    (x0 y0 : List ℚ) (body : RigidBody) (hty : body.type = some "shock")
    (hlen2 : 2 ≤ body.point_ids.length) (hstroke : body.stroke = none) (st : BState) :
    (processBody hyp pts x0 y0 st body).isOk = false := by
  unfold processBody
  rw [if_neg (by omega)]
  have htyf : ¬ body.type = some "fixed" := by
    rw [hty]
    simp
  rw [if_neg htyf]
  dsimp only
  obtain ⟨pr, rest, heq⟩ := List.exists_cons_of_ne_nil (segPairs_ne_nil body hlen2)
  cases hfold : exceptFold (processSeg hyp pts x0 y0 body) st (segPairs body) with
  | error e => rfl
  | ok sf =>
    have := exceptFold_isOk_false_of_bad (processSeg hyp pts x0 y0 body)
      (segPairs body) st pr (by rw [heq]; exact List.mem_cons_self _ _)
      (fun s => processSeg_nostroke_bad hyp pts x0 y0 body pr hty hstroke s)
    rw [hfold] at this
    cases this

theorem processBody_fixed_marks (hyp : ℚ → ℚ → ℚ) (pts : List BikePoint)
    (x0 y0 : List ℚ) (st : BState) (body : RigidBody) (st1 : BState)
    (h : processBody hyp pts x0 y0 st body = Except.ok st1)
    (hty : body.type = some "fixed") (hlen2 : 2 ≤ body.point_ids.length)
    (pid : String) (hm : pid ∈ body.point_ids) (i : ℕ)
    (hpi : pindex pts pid = some i) (hlen : i < st.fixed.length) :
    st1.fixed.getD i false = true := by
  rcases processBody_ok_elim hyp pts x0 y0 st body st1 h with ⟨hlt, -⟩ | ⟨-, stm, hmf, hfold⟩
  · omega
  · rw [if_pos hty] at hmf
    have hstm : stm.fixed.getD i false = true :=
      markFixed_sets pts body.point_ids st stm hmf pid hm i hpi hlen
    refine exceptFold_ok_inv _ (fun s => s.fixed.getD i false = true) _ stm st1 ?_ hfold hstm
    intro s seg s2 _ hf hP
    obtain ⟨-, -, hfx⟩ := processSeg_driver_facts hyp pts x0 y0 body s seg s2 hf
    rw [hfx]
    exact hP

theorem segfold_edges (hyp : ℚ → ℚ → ℚ) (pts : List BikePoint) (body : RigidBody) :
    ∀ (segs : List (String × String)) (st st1 : BState),
    exceptFold (processSeg hyp pts (pts.map (fun p => p.x)) (pts.map (fun p => p.y)) body)
      st segs = Except.ok st1 →
    st1.edges = st.edges ++ segs.map (specEdge hyp pts body) := by
  intro segs
  induction segs with
  | nil =>
    intro st st1 h
    cases h
    simp
  | cons pr rest ih =>
    intro st st1 h
    obtain ⟨s1, hf1, hrest⟩ := exceptFold_cons_ok _ pr rest st st1 h
    obtain ⟨-, he, -, -⟩ := processSeg_char hyp pts body st pr s1 hf1
    rw [ih s1 st1 hrest, he, List.map_cons, List.append_assoc]
    rfl

theorem processBody_edges (hyp : ℚ → ℚ → ℚ) (pts : List BikePoint) (st : BState)
    (body : RigidBody) (st1 : BState)
    (h : processBody hyp pts (pts.map (fun p => p.x)) (pts.map (fun p => p.y)) st body
      = Except.ok st1) :
    st1.edges = st.edges ++ specBodyEdges hyp pts body := by
  rcases processBody_ok_elim hyp pts _ _ st body st1 h with ⟨hlt, rfl⟩ | ⟨hlt, stm, hmf, hfold⟩
  · rw [specBodyEdges, if_pos hlt, List.append_nil]
  · obtain ⟨he, -, -, -⟩ := markBranch_facts pts st body stm hmf
    rw [segfold_edges hyp pts body (segPairs body) stm st1 hfold, he,
      specBodyEdges, if_neg hlt]

theorem fold_edges (hyp : ℚ → ℚ → ℚ) (pts : List BikePoint) :
    ∀ (bds : List RigidBody) (st st1 : BState),
    exceptFold (processBody hyp pts (pts.map (fun p => p.x)) (pts.map (fun p => p.y)))
      st bds = Except.ok st1 →
    st1.edges = st.edges ++ bds.flatMap (specBodyEdges hyp pts) := by
  intro bds
  induction bds with
  | nil =>
    intro st st1 h
    cases h
    simp
  | cons body rest ih =>
    intro st st1 h
    obtain ⟨s1, hf1, hrest⟩ := exceptFold_cons_ok _ body rest st st1 h
    rw [ih s1 st1 hrest, processBody_edges hyp pts st body s1 hf1,
      List.flatMap_cons, List.append_assoc]

/-- Coherence of the driver record with the edge list: the driver index
points at an edge whose rest length is the recorded driver rest length
and which is flagged as the shock. -/
theorem processSeg_coherent (hyp : ℚ → ℚ → ℚ) (pts : List BikePoint) (body : RigidBody)
    (st : BState) (seg : String × String) (st1 : BState)
    (h : processSeg hyp pts (pts.map (fun p => p.x)) (pts.map (fun p => p.y)) body st seg
      = Except.ok st1)
    (hP : ∀ d : ℕ × ℚ × ℚ, st.driver = some d → d.1 < st.edges.length ∧
      (st.edges.getD d.1 default).L0 = d.2.1 ∧
      (st.edges.getD d.1 default).is_shock = true) :
    ∀ d : ℕ × ℚ × ℚ, st1.driver = some d → d.1 < st1.edges.length ∧
      (st1.edges.getD d.1 default).L0 = d.2.1 ∧
      (st1.edges.getD d.1 default).is_shock = true := by
  obtain ⟨-, he, hshock, hns⟩ := processSeg_char hyp pts body st seg st1 h
  intro d hd
  by_cases hty : body.type = some "shock"
  · obtain ⟨-, strk, -, hd1⟩ := hshock hty
    rw [hd] at hd1
    cases hd1
    have hsE : (specEdge hyp pts body seg).is_shock = true := by
      rw [specEdge, if_pos hty]
    refine ⟨?_, ?_, ?_⟩
    · rw [he, List.length_append]
      simp
    · rw [he, List.getD_append_right _ _ default st.edges.length le_rfl, Nat.sub_self]
      rfl
    · rw [he, List.getD_append_right _ _ default st.edges.length le_rfl, Nat.sub_self]
      exact hsE
  · rw [hns hty] at hd
    obtain ⟨hb, hL, hs⟩ := hP d hd
    refine ⟨?_, ?_, ?_⟩
    · rw [he, List.length_append]
      omega
    · rw [he, List.getD_append _ _ default d.1 hb]
      exact hL
    · rw [he, List.getD_append _ _ default d.1 hb]
      exact hs

theorem processBody_coherent (hyp : ℚ → ℚ → ℚ) (pts : List BikePoint) (st : BState)
    (body : RigidBody) (st1 : BState)
    (h : processBody hyp pts (pts.map (fun p => p.x)) (pts.map (fun p => p.y)) st body
      = Except.ok st1)
    (hP : ∀ d : ℕ × ℚ × ℚ, st.driver = some d → d.1 < st.edges.length ∧
      (st.edges.getD d.1 default).L0 = d.2.1 ∧
      (st.edges.getD d.1 default).is_shock = true) :
    ∀ d : ℕ × ℚ × ℚ, st1.driver = some d → d.1 < st1.edges.length ∧
      (st1.edges.getD d.1 default).L0 = d.2.1 ∧
      (st1.edges.getD d.1 default).is_shock = true := by
  rcases processBody_ok_elim hyp pts _ _ st body st1 h with ⟨-, rfl⟩ | ⟨-, stm, hmf, hfold⟩
  · exact hP
  · obtain ⟨he, hd, -, -⟩ := markBranch_facts pts st body stm hmf
    refine exceptFold_ok_inv _
      (fun s => ∀ d : ℕ × ℚ × ℚ, s.driver = some d → d.1 < s.edges.length ∧
        (s.edges.getD d.1 default).L0 = d.2.1 ∧
        (s.edges.getD d.1 default).is_shock = true)
      _ stm st1 ?_ hfold ?_
    · intro s seg s2 _ hf hPs
      exact processSeg_coherent hyp pts body s seg s2 hf hPs
    · intro d hd2
      rw [hd] at hd2
      have := hP d hd2
      rw [he]
      exact this

theorem pindex_lt (pts : List BikePoint) (pid : String) (i : ℕ)
    (h : pindex pts pid = some i) : i < pts.length := by
  rw [pindex] at h
  obtain ⟨hlt, -, -⟩ := List.findIdx?_eq_some_iff_getElem.mp h
  exact hlt

/-! ### Build-level lemmas -/

theorem build_ok_elim (hyp : ℚ → ℚ → ℚ) (pts : List BikePoint) (bds : List RigidBody)
    (b : BuildOut) (hb : build_internal_model hyp pts bds = Except.ok b) :
    ∃ st : BState,
      exceptFold (processBody hyp pts (pts.map (fun p => p.x)) (pts.map (fun p => p.y)))
        ⟨[], pts.map (fun p => p.type == "fixed" || p.type == "bb"), none⟩ bds
        = Except.ok st ∧
      st.driver = some (b.driver_edge_idx, b.driver_L0, b.driver_stroke) ∧
      b.edges = st.edges ∧ b.fixed = st.fixed ∧
      b.rear_axle_idx = pts.findIdx? (fun p => p.type == "rear_axle") := by
  unfold build_internal_model at hb
  by_cases h1 : pts.isEmpty = true
  · rw [if_pos h1] at hb
    cases hb
  rw [if_neg h1] at hb
  by_cases h2 : bds.isEmpty = true
  · rw [if_pos h2] at hb
    cases hb
  rw [if_neg h2] at hb
  by_cases h3 : ¬ (pts.map (fun p => p.id)).Nodup
  · rw [if_pos h3] at hb
    cases hb
  rw [if_neg h3] at hb
  dsimp only at hb
  cases hfold : exceptFold (processBody hyp pts (pts.map (fun p => p.x))
      (pts.map (fun p => p.y)))
      ⟨[], pts.map (fun p => p.type == "fixed" || p.type == "bb"), none⟩ bds with
  | error e =>
    rw [hfold] at hb
    exact Except.noConfusion hb
  | ok st =>
    rw [hfold] at hb
    dsimp only at hb
    cases hdrv : st.driver with
    | none =>
      rw [hdrv] at hb
      exact Except.noConfusion hb
    | some d =>
      rw [hdrv] at hb
      cases hb
      exact ⟨st, rfl, hdrv, rfl, rfl, rfl⟩

theorem build_isOk_false_of_fold (hyp : ℚ → ℚ → ℚ) (pts : List BikePoint)
    (bds : List RigidBody)
    (hbad : ∀ st : BState,
      (exceptFold (processBody hyp pts (pts.map (fun p => p.x)) (pts.map (fun p => p.y)))
        st bds).isOk = false) :
    (build_internal_model hyp pts bds).isOk = false := by
  unfold build_internal_model
  by_cases h1 : pts.isEmpty = true
  · rw [if_pos h1]
    rfl
  rw [if_neg h1]
  by_cases h2 : bds.isEmpty = true
  · rw [if_pos h2]
    rfl
  rw [if_neg h2]
  by_cases h3 : ¬ (pts.map (fun p => p.id)).Nodup
  · rw [if_pos h3]
    rfl
  rw [if_neg h3]
  dsimp only
  cases hfold : exceptFold (processBody hyp pts (pts.map (fun p => p.x))
      (pts.map (fun p => p.y)))
      ⟨[], pts.map (fun p => p.type == "fixed" || p.type == "bb"), none⟩ bds with
  | error e => rfl
  | ok st =>
    have hcontra := hbad ⟨[], pts.map (fun p => p.type == "fixed" || p.type == "bb"), none⟩
    rw [hfold] at hcontra
    simp [Except.isOk, Except.toBool] at hcontra

theorem build_bad_of_body_bad (hyp : ℚ → ℚ → ℚ) (pts : List BikePoint)
    (bds : List RigidBody) (body : RigidBody) (hm : body ∈ bds)
    (hbad : ∀ st, (processBody hyp pts (pts.map (fun p => p.x)) (pts.map (fun p => p.y))
      st body).isOk = false) :
    (build_internal_model hyp pts bds).isOk = false :=
  build_isOk_false_of_fold hyp pts bds
    (fun st => exceptFold_isOk_false_of_bad _ bds st body hm hbad)

theorem fold_two_shocks_bad (hyp : ℚ → ℚ → ℚ) (pts : List BikePoint) (x0 y0 : List ℚ) :
    ∀ (bds : List RigidBody) (st : BState),
    2 ≤ (bds.filter isQualShock).length →
    (exceptFold (processBody hyp pts x0 y0) st bds).isOk = false := by
  intro bds
  induction bds with
  | nil =>
    intro st h
    simp [List.filter] at h
  | cons hd t ih =>
    intro st hcount
    rw [exceptFold]
    cases hf : processBody hyp pts x0 y0 st hd with
    | error e => rfl
    | ok st1 =>
      by_cases hq : isQualShock hd = true
      · have hsome := processBody_qualshock_driver hyp pts x0 y0 st hd st1 hf hq
        have hcount_t : 0 < (t.filter isQualShock).length := by
          rw [List.filter_cons_of_pos hq, List.length_cons] at hcount
          omega
        obtain ⟨b2, hb2⟩ := List.exists_mem_of_length_pos hcount_t
        obtain ⟨hb2t, hb2q⟩ := List.mem_filter.mp hb2
        exact exceptFold_bad _ (fun s => s.driver.isSome = true) t st1 b2 hb2t
          (fun s c s2 _ hfc hPs => processBody_driver_mono hyp pts x0 y0 s c s2 hfc hPs)
          (fun s hPs => processBody_qualshock_bad hyp pts x0 y0 b2 hb2q s hPs) hsome
      · have hcount_t : 2 ≤ (t.filter isQualShock).length := by
          rw [List.filter_cons_of_neg hq] at hcount
          exact hcount
        exact ih st1 hcount_t

theorem build_driver_coherent (hyp : ℚ → ℚ → ℚ) (pts : List BikePoint)
    (bds : List RigidBody) (b : BuildOut)
    (hb : build_internal_model hyp pts bds = Except.ok b) :
    b.driver_edge_idx < b.edges.length ∧
    (b.edges.getD b.driver_edge_idx default).L0 = b.driver_L0 ∧
    (b.edges.getD b.driver_edge_idx default).is_shock = true := by
  obtain ⟨st, hfold, hdrv, he, -, -⟩ := build_ok_elim hyp pts bds b hb
  have hP := exceptFold_ok_inv _
    (fun s => ∀ d : ℕ × ℚ × ℚ, s.driver = some d → d.1 < s.edges.length ∧
      (s.edges.getD d.1 default).L0 = d.2.1 ∧
      (s.edges.getD d.1 default).is_shock = true)
    bds _ st
    (fun s body s2 _ hf hPs => processBody_coherent hyp pts s body s2 hf hPs)
    hfold (fun d hd => by cases hd)
  have := hP (b.driver_edge_idx, b.driver_L0, b.driver_stroke) hdrv
  rw [he]
  exact this

theorem build_edges_spec (hyp : ℚ → ℚ → ℚ) (pts : List BikePoint)
    (bds : List RigidBody) (b : BuildOut)
    (hb : build_internal_model hyp pts bds = Except.ok b) :
    b.edges = bds.flatMap (specBodyEdges hyp pts) := by
  obtain ⟨st, hfold, -, he, -, -⟩ := build_ok_elim hyp pts bds b hb
  rw [he, fold_edges hyp pts bds _ st hfold]
  rfl

theorem fold_fixed_marks (hyp : ℚ → ℚ → ℚ) (pts : List BikePoint) (x0 y0 : List ℚ)
    (body : RigidBody) (hty : body.type = some "fixed")
    (hlen2 : 2 ≤ body.point_ids.length) (pid : String) (hpid : pid ∈ body.point_ids)
    (i : ℕ) (hpi : pindex pts pid = some i) :
    ∀ (bds : List RigidBody) (st st1 : BState), body ∈ bds →
    exceptFold (processBody hyp pts x0 y0) st bds = Except.ok st1 →
    st.fixed.length = pts.length → st1.fixed.getD i false = true := by
  intro bds
  induction bds with
  | nil =>
    intro st st1 hm
    cases hm
  | cons hd t ih =>
    intro st st1 hm hfold hlenfix
    obtain ⟨s1, hf1, hrest⟩ := exceptFold_cons_ok _ hd t st st1 hfold
    rcases List.mem_cons.mp hm with rfl | hmt
    · have hs1 : s1.fixed.getD i false = true :=
        processBody_fixed_marks hyp pts x0 y0 st body s1 hf1 hty hlen2 pid hpid i hpi
          (by rw [hlenfix]; exact pindex_lt pts pid i hpi)
      refine exceptFold_ok_inv _ (fun s => s.fixed.getD i false = true) t s1 st1 ?_
        hrest hs1
      intro s c s2 _ hfc hPs
      exact processBody_flag_mono hyp pts x0 y0 s c s2 i hfc hPs
    · refine ih s1 st1 hmt hrest ?_
      rw [processBody_fixed_len hyp pts x0 y0 st hd s1 hf1]
      exact hlenfix

theorem build_fixed_marks (hyp : ℚ → ℚ → ℚ) (pts : List BikePoint)
    (bds : List RigidBody) (b : BuildOut)
    (hb : build_internal_model hyp pts bds = Except.ok b) (body : RigidBody)
    (hm : body ∈ bds) (hty : body.type = some "fixed")
    (hlen2 : 2 ≤ body.point_ids.length) (pid : String) (hpid : pid ∈ body.point_ids)
    (i : ℕ) (hpi : pindex pts pid = some i) : b.fixed.getD i false = true := by
  obtain ⟨st, hfold, -, -, hfx, -⟩ := build_ok_elim hyp pts bds b hb
  rw [hfx]
  exact fold_fixed_marks hyp pts _ _ body hty hlen2 pid hpid i hpi bds _ st hm hfold
    (by rw [List.length_map])

theorem solve_isOk_eq_build (hyp : ℚ → ℚ → ℚ) (pts : List BikePoint)
    (bds : List RigidBody) (n it : ℤ) :
    (solve_bike_linkage hyp pts bds n it).isOk = (build_internal_model hyp pts bds).isOk := by
  unfold solve_bike_linkage
  cases h : build_internal_model hyp pts bds with
  | error e => rfl
  | ok b => rfl

theorem solve_ok_of_build_ok (hyp : ℚ → ℚ → ℚ) (pts : List BikePoint)
    (bds : List RigidBody) (b : BuildOut) (n it : ℤ)
    (hb : build_internal_model hyp pts bds = Except.ok b) :
    solve_bike_linkage hyp pts bds n it =
      Except.ok (solve_with_edges hyp pts b.edges b.fixed b.rear_axle_idx
        b.driver_edge_idx b.driver_L0 b.driver_stroke n it) := by
  unfold solve_bike_linkage
  rw [hb]

/-! ### Arithmetic helpers -/

theorem pyabs_nonneg (q : ℚ) : 0 ≤ pyabs q := by
  rw [pyabs]
  by_cases h : q < 0
  · rw [if_pos h]
    linarith
  · rw [if_neg h]
    linarith [not_lt.mp h]

theorem pyabs_eq_zero (q : ℚ) (h : pyabs q = 0) : q = 0 := by
  rw [pyabs] at h
  by_cases hq : q < 0
  · rw [if_pos hq] at h
    linarith [neg_eq_zero.mp h]
  · rwa [if_neg hq] at h

theorem l1dist_zero (a b : ℚ) (h : l1dist a b = 0) : a = 0 ∧ b = 0 := by
  rw [l1dist] at h
  have ha : pyabs a = 0 := by
    have := pyabs_nonneg a
    have := pyabs_nonneg b
    linarith
  have hb : pyabs b = 0 := by
    have := pyabs_nonneg a
    have := pyabs_nonneg b
    linarith
  exact ⟨pyabs_eq_zero a ha, pyabs_eq_zero b hb⟩

theorem strokeAt_succ_sub (d : ℚ) (ns : ℕ) (j : ℕ) :
    strokeAt d ns (j + 1) - strokeAt d ns j = d / (ns : ℚ) := by
  have hc : ((j + 1 : ℕ) : ℚ) - ((j : ℕ) : ℚ) = 1 := by
    push_cast
    ring
  rw [strokeAt, strokeAt, ← mul_sub, div_sub_div_same, hc, mul_one_div]

theorem pymaxI_of_le (n : ℤ) (h : 1 ≤ n) : pymaxI 1 n = n := by
  rw [pymaxI, if_pos h]

theorem pymaxI_of_lt (n : ℤ) (h : ¬ 1 ≤ n) : pymaxI 1 n = 1 := by
  rw [pymaxI, if_neg h]

theorem pymaxI_idem (n : ℤ) : pymaxI 1 (pymaxI 1 n) = pymaxI 1 n := by
  by_cases h : 1 ≤ n
  · rw [pymaxI_of_le n h, pymaxI_of_le n h]
  · rw [pymaxI_of_lt n h, pymaxI_of_le 1 le_rfl]

theorem build_no_shock_bad (hyp : ℚ → ℚ → ℚ) (pts : List BikePoint)
    (bds : List RigidBody) (h : ∀ body ∈ bds, ¬ body.type = some "shock") :
    (build_internal_model hyp pts bds).isOk = false := by
  unfold build_internal_model
  by_cases h1 : pts.isEmpty = true
  · rw [if_pos h1]
    rfl
  rw [if_neg h1]
  by_cases h2 : bds.isEmpty = true
  · rw [if_pos h2]
    rfl
  rw [if_neg h2]
  by_cases h3 : ¬ (pts.map (fun p => p.id)).Nodup
  · rw [if_pos h3]
    rfl
  rw [if_neg h3]
  dsimp only
  cases hfold : exceptFold (processBody hyp pts (pts.map (fun p => p.x))
      (pts.map (fun p => p.y)))
      ⟨[], pts.map (fun p => p.type == "fixed" || p.type == "bb"), none⟩ bds with
  | error e => rfl
  | ok st =>
    have hnone : st.driver = none :=
      exceptFold_ok_inv _ (fun s => s.driver = none) bds _ st
        (fun s body s2 hmem hf hPs =>
          processBody_driver_stays_none hyp pts _ _ s body s2 hf (h body hmem) hPs)
        hfold rfl
    dsimp only
    rw [hnone]
    rfl

theorem build_no_points (hyp : ℚ → ℚ → ℚ) (bds : List RigidBody) :
    build_internal_model hyp [] bds = Except.error "No points defined for this bike." := rfl

theorem build_no_bodies (hyp : ℚ → ℚ → ℚ) (pts : List BikePoint) (h : pts ≠ []) :
    build_internal_model hyp pts [] =
      Except.error "No rigid bodies defined for this bike." := by
  cases pts with
  | nil => exact absurd rfl h
  | cons p pt => rfl

theorem build_dup_ids (hyp : ℚ → ℚ → ℚ) (pts : List BikePoint) (bds : List RigidBody)
    (hp : pts ≠ []) (hbs : bds ≠ []) (hnd : ¬ (pts.map (fun p => p.id)).Nodup) :
    build_internal_model hyp pts bds = Except.error "BikePoint IDs must be unique." := by
  unfold build_internal_model
  rw [if_neg (by simp [List.isEmpty_iff, hp]), if_neg (by simp [List.isEmpty_iff, hbs]),
    if_pos hnd]

/-! ### Claim theorems -/

/-- C8 counterexample: the divisor is not floored at the `1e-9` epsilon.
`c8pts`/`c8bds` is accepted by the builder; its single (shock) edge joins
points 0 and 1 whose initial distance is `1e-10`, and the divisor used by
the very first relaxation update of that edge — `relaxDivisor` applied to
the measured distance at the initial pose, exactly as in `relaxEdge` — is
`1e-10`, strictly below `1e-9`.  So the claim "the distance used as the
divisor is floored at a small positive epsilon" is false as stated. -/
theorem C8_cex :
    (build_internal_model l1dist c8pts c8bds).isOk = true ∧
    ((build_internal_model l1dist c8pts c8bds).toOption.map
      (fun b => ((b.edges.getD 0 default).ia, (b.edges.getD 0 default).ib))) = some (0, 1) ∧
    relaxDivisor (l1dist
      ((c8pts.map (fun p => p.x)).getD 1 0 - (c8pts.map (fun p => p.x)).getD 0 0)
      ((c8pts.map (fun p => p.y)).getD 1 0 - (c8pts.map (fun p => p.y)).getD 0 0))
      = 1 / 10000000000 ∧
    (1 : ℚ) / 10000000000 < 1 / 1000000000 := by
  refine ⟨by with_unfolding_all rfl, by with_unfolding_all rfl,
    by with_unfolding_all rfl, by with_unfolding_all decide⟩

/-- C8 (amended): in every relaxation update the divisor of the fractional
correction is the measured endpoint distance with an exactly-zero value
replaced by `1e-9` (`relaxDivisor`, used by `relaxEdge`); it is never
zero, so the correction never divides by zero — but distances strictly
between 0 and `1e-9` are used unchanged, not floored up to the epsilon. -/
theorem C8_thm (d : ℚ) :
    relaxDivisor d ≠ 0 ∧ (¬ d = 0 → relaxDivisor d = d) ∧
    relaxDivisor 0 = 1 / 1000000000 := by
  refine ⟨?_, ?_, ?_⟩
  · rw [relaxDivisor]
    by_cases h : d = 0
    · rw [if_pos h]
      norm_num
    · rw [if_neg h]
      exact h
  · intro h
    rw [relaxDivisor, if_neg h]
  · rw [relaxDivisor, if_pos rfl]

/-- C8 witness: the amended theorem evaluated at the nonzero distance
`1e-10` — used verbatim as the divisor — and at zero. -/
theorem C8_wit :
    relaxDivisor (1 / 10000000000) ≠ 0 ∧
    relaxDivisor (1 / 10000000000) = 1 / 10000000000 := by
  refine ⟨(C8_thm (1 / 10000000000)).1, (C8_thm (1 / 10000000000)).2.1 (by norm_num)⟩

/-- C9: `solve_bike_linkage` is deterministic — two calls with equal
points, bodies, `n_steps` and `iterations` (and the same distance
function) return equal `SolverResult` values.  The embedding is a pure
function of its inputs, exactly because the source touches no state
outside the call: the only mutable data are the coordinate lists and the
record list created inside the call, and the relaxation loop visits edges
in declaration order. -/
theorem C9_thm (hyp : ℚ → ℚ → ℚ) (p1 p2 : List BikePoint) (b1 b2 : List RigidBody)
    (n1 n2 i1 i2 : ℤ) (hp : p1 = p2) (hb : b1 = b2) (hn : n1 = n2) (hi : i1 = i2) :
    solve_bike_linkage hyp p1 b1 n1 i1 = solve_bike_linkage hyp p2 b2 n2 i2 := by
  subst hp
  subst hb
  subst hn
  subst hi
  rfl

/-- C9 witness: determinism at a concrete input. -/
theorem C9_wit :
    solve_bike_linkage l1dist wpts wbds 4 2 = solve_bike_linkage l1dist wpts wbds 4 2 :=
  C9_thm l1dist wpts wpts wbds wbds 4 4 2 2 rfl rfl rfl rfl

/-- C2 counterexample: a body referencing an unknown point id does not
always raise.  `c2bds` contains a body whose `point_ids` is the single
unknown id `"nope"`; because bodies with fewer than two point ids are
skipped before any lookup, the builder accepts the input and the solver
returns a full result instead of a validation error. -/
theorem C2_cex :
    ("nope" ∈ (c2bds.getD 0 default).point_ids ∧ pindex wpts "nope" = none) ∧
    (build_internal_model l1dist wpts c2bds).isOk = true ∧
    (solve_bike_linkage l1dist wpts c2bds 1 1).isOk = true := by
  refine ⟨⟨?_, by with_unfolding_all rfl⟩, by with_unfolding_all rfl,
    by with_unfolding_all rfl⟩
  with_unfolding_all decide

/-- C2 (amended): each input-validation condition raises a `ValueError`
during the build phase — so `solve_bike_linkage` produces no result —
with the proviso, forced by the counterexample, that conditions about a
body only fire for bodies with at least two point ids (the source skips
shorter bodies before validating them).  Empty points, empty bodies and
duplicate ids produce their own distinct messages; an unknown reference
from a structural body, a missing `stroke` on a structural shock body,
two structural shock bodies, and the absence of any shock body each make
the build (and hence the solve) fail rather than be coerced to a result. -/
theorem C2_thm (hyp : ℚ → ℚ → ℚ) :
    (∀ bds : List RigidBody, build_internal_model hyp [] bds =
      Except.error "No points defined for this bike." ∧
      ∀ n it : ℤ, solve_bike_linkage hyp [] bds n it =
        Except.error "No points defined for this bike.") ∧
    (∀ pts : List BikePoint, pts ≠ [] →
      build_internal_model hyp pts [] =
        Except.error "No rigid bodies defined for this bike." ∧
      ∀ n it : ℤ, solve_bike_linkage hyp pts [] n it =
        Except.error "No rigid bodies defined for this bike.") ∧
    (∀ (pts : List BikePoint) (bds : List RigidBody), pts ≠ [] → bds ≠ [] →
      ¬ (pts.map (fun p => p.id)).Nodup →
      build_internal_model hyp pts bds = Except.error "BikePoint IDs must be unique." ∧
      ∀ n it : ℤ, solve_bike_linkage hyp pts bds n it =
        Except.error "BikePoint IDs must be unique.") ∧
    (∀ (pts : List BikePoint) (bds : List RigidBody) (body : RigidBody), body ∈ bds →
      2 ≤ body.point_ids.length →
      (∃ pid ∈ body.point_ids, pindex pts pid = none) →
      (build_internal_model hyp pts bds).isOk = false ∧
      ∀ n it : ℤ, (solve_bike_linkage hyp pts bds n it).isOk = false) ∧
    (∀ (pts : List BikePoint) (bds : List RigidBody) (body : RigidBody), body ∈ bds →
      body.type = some "shock" → 2 ≤ body.point_ids.length → body.stroke = none →
      (build_internal_model hyp pts bds).isOk = false ∧
      ∀ n it : ℤ, (solve_bike_linkage hyp pts bds n it).isOk = false) ∧
    (∀ (pts : List BikePoint) (bds : List RigidBody),
      2 ≤ (bds.filter isQualShock).length →
      (build_internal_model hyp pts bds).isOk = false ∧
      ∀ n it : ℤ, (solve_bike_linkage hyp pts bds n it).isOk = false) ∧
    (∀ (pts : List BikePoint) (bds : List RigidBody),
      (∀ body ∈ bds, ¬ body.type = some "shock") →
      (build_internal_model hyp pts bds).isOk = false ∧
      ∀ n it : ℤ, (solve_bike_linkage hyp pts bds n it).isOk = false) := by
  have hsolveEq : ∀ (pts : List BikePoint) (bds : List RigidBody) (e : String),
      build_internal_model hyp pts bds = Except.error e →
      ∀ n it : ℤ, solve_bike_linkage hyp pts bds n it = Except.error e := by
    intro pts bds e hbe n it
    unfold solve_bike_linkage
    rw [hbe]
  have hsolveBad : ∀ (pts : List BikePoint) (bds : List RigidBody),
      (build_internal_model hyp pts bds).isOk = false →
      ∀ n it : ℤ, (solve_bike_linkage hyp pts bds n it).isOk = false := by
    intro pts bds hbad n it
    rw [solve_isOk_eq_build]
    exact hbad
  refine ⟨?_, ?_, ?_, ?_, ?_, ?_, ?_⟩
  · intro bds
    exact ⟨build_no_points hyp bds, hsolveEq [] bds _ (build_no_points hyp bds)⟩
  · intro pts hp
    exact ⟨build_no_bodies hyp pts hp, hsolveEq pts [] _ (build_no_bodies hyp pts hp)⟩
  · intro pts bds hp hbs hnd
    exact ⟨build_dup_ids hyp pts bds hp hbs hnd,
      hsolveEq pts bds _ (build_dup_ids hyp pts bds hp hbs hnd)⟩
  · intro pts bds body hm hlen2 hpid
    obtain ⟨pid, hpm, hpi⟩ := hpid
    have hbad := build_bad_of_body_bad hyp pts bds body hm
      (fun st => processBody_unknown_bad hyp pts _ _ body hlen2 pid hpm hpi st)
    exact ⟨hbad, hsolveBad pts bds hbad⟩
  · intro pts bds body hm hty hlen2 hstroke
    have hbad := build_bad_of_body_bad hyp pts bds body hm
      (fun st => processBody_nostroke_bad hyp pts _ _ body hty hlen2 hstroke st)
    exact ⟨hbad, hsolveBad pts bds hbad⟩
  · intro pts bds hcount
    have hbad := build_isOk_false_of_fold hyp pts bds
      (fun st => fold_two_shocks_bad hyp pts _ _ bds st hcount)
    exact ⟨hbad, hsolveBad pts bds hbad⟩
  · intro pts bds hnoshock
    have hbad := build_no_shock_bad hyp pts bds hnoshock
    exact ⟨hbad, hsolveBad pts bds hbad⟩

/-- C2 witness: the empty-points, missing-stroke and two-shocks conditions
of the amended theorem, discharged at concrete inputs. -/
theorem C2_wit :
    build_internal_model l1dist [] wbds = Except.error "No points defined for this bike." ∧
    (build_internal_model l1dist wpts
      [⟨"sh", ["p1", "p2"], some "shock", false, none, none⟩]).isOk = false ∧
    (build_internal_model l1dist wpts
      [⟨"s1", ["p1", "p2"], some "shock", false, none, some 2⟩,
       ⟨"s2", ["p1", "p2"], some "shock", false, none, some 3⟩]).isOk = false := by
  refine ⟨((C2_thm l1dist).1 wbds).1, ?_, ?_⟩
  · exact (((C2_thm l1dist).2.2.2.2.1 wpts
      [⟨"sh", ["p1", "p2"], some "shock", false, none, none⟩]
      ⟨"sh", ["p1", "p2"], some "shock", false, none, none⟩
      (List.mem_cons_self _ _) rfl (by decide) rfl)).1
  · exact (((C2_thm l1dist).2.2.2.2.2.1 wpts
      [⟨"s1", ["p1", "p2"], some "shock", false, none, some 2⟩,
       ⟨"s2", ["p1", "p2"], some "shock", false, none, some 3⟩]
      (by with_unfolding_all decide))).1

/-- C3 counterexample: `length0` is not honoured for non-shock bodies.
In `c3bds` the bar body carries `length0 = 99` but its edge's rest length
is the geometric distance 4; only the shock branch reads `length0`.  So
the claim "unless the body supplies `length0`, in which case `length0` is
used" is false as stated for bar bodies. -/
theorem C3_cex :
    (c3bds.getD 0 default).length0 = some 99 ∧
    (build_internal_model l1dist c3pts c3bds).isOk = true ∧
    ((build_internal_model l1dist c3pts c3bds).toOption.map
      (fun b => b.edges.map (fun e => e.L0))) = some [4, 5] ∧
    (4 : ℚ) ≠ 99 := by
  refine ⟨by with_unfolding_all rfl, by with_unfolding_all rfl,
    by with_unfolding_all rfl, by norm_num⟩

/-- C3 (amended): the compiled edge list is exactly the concatenation,
in declaration order, of each structural body's segment-pair edges, where
each edge's rest length is the distance between the two endpoints'
initial coordinates — except that for a body of type `shock` a supplied
`length0` overrides it (`specEdge`/`specBodyEdges` spell this out);
non-shock bodies always get the geometric length, even when they carry a
`length0`. -/
theorem C3_thm (hyp : ℚ → ℚ → ℚ) (pts : List BikePoint) (bds : List RigidBody)
    (b : BuildOut) (hb : build_internal_model hyp pts bds = Except.ok b) :
    b.edges = bds.flatMap (specBodyEdges hyp pts) :=
  build_edges_spec hyp pts bds b hb

/-- C3 witness: the amended theorem at `c3pts`/`c3bds`, whose compiled
edges are the bar edge with geometric length 4 and the shock edge. -/
theorem C3_wit :
    (⟨[⟨0, 1, 4, false⟩, ⟨1, 2, 5, true⟩], [true, false, false], none, 1, 5, 2⟩ :
      BuildOut).edges = c3bds.flatMap (specBodyEdges l1dist c3pts) :=
  C3_thm l1dist c3pts c3bds _ (by with_unfolding_all rfl)

/-- C4 counterexample: a `fixed`-type body with a single point id pins
nothing.  In `c4bds` the body `fx` has `point_ids = ["p1"]` and type
`fixed`, yet the compiled fixed flag of point 0 is `false`, because the
builder skips bodies with fewer than two point ids before the pinning
loop.  So "this holds for every fixed-type body whatever the length of
its point_ids list" is false. -/
theorem C4_cex :
    (c4bds.getD 0 default).type = some "fixed" ∧
    (c4bds.getD 0 default).point_ids = ["p1"] ∧
    pindex c4pts "p1" = some 0 ∧
    (build_internal_model l1dist c4pts c4bds).isOk = true ∧
    ((build_internal_model l1dist c4pts c4bds).toOption.map (fun b => b.fixed)) =
      some [false, false, false] := by
  refine ⟨by with_unfolding_all rfl, by with_unfolding_all rfl,
    by with_unfolding_all rfl, by with_unfolding_all rfl, by with_unfolding_all rfl⟩

/-- C4 (amended): every body of type `fixed` with at least two point ids
pins all of its member points — the compiled fixed flag of every listed
point is true, regardless of the point's own type.  (Bodies with fewer
than two point ids are skipped, as the counterexample forces.) -/
theorem C4_thm (hyp : ℚ → ℚ → ℚ) (pts : List BikePoint) (bds : List RigidBody)
    (b : BuildOut) (hb : build_internal_model hyp pts bds = Except.ok b)
    (body : RigidBody) (hm : body ∈ bds) (hty : body.type = some "fixed")
    (hlen2 : 2 ≤ body.point_ids.length) (pid : String) (hpid : pid ∈ body.point_ids)
    (i : ℕ) (hpi : pindex pts pid = some i) : b.fixed.getD i false = true :=
  build_fixed_marks hyp pts bds b hb body hm hty hlen2 pid hpid i hpi

/-- C4 witness: in `w4pts`/`w4bds` the fixed body `fx = ["p1","p2"]` pins
point 0 (a `free`-typed point). -/
theorem C4_wit :
    (⟨[⟨0, 1, 5, false⟩, ⟨2, 3, 5, true⟩], [true, true, false, false], none, 1, 5, 2⟩ :
      BuildOut).fixed.getD 0 false = true :=
  C4_thm l1dist w4pts w4bds _ (by with_unfolding_all rfl)
    ⟨"fx", ["p1", "p2"], some "fixed", false, none, none⟩
    (List.mem_cons_self _ _) rfl (by decide) "p1" (by decide) 0
    (by with_unfolding_all rfl)

theorem resSteps_eq_sweep (hyp : ℚ → ℚ → ℚ) (pts : List BikePoint)
    (bds : List RigidBody) (b : BuildOut) (n it : ℤ)
    (hb : build_internal_model hyp pts bds = Except.ok b) :
    resSteps (solve_bike_linkage hyp pts bds n it) =
      sweepSteps hyp pts b.edges b.fixed b.rear_axle_idx
        (b.rear_axle_idx.map fun ri => (pts.map (fun p => p.y)).getD ri 0)
        b.driver_edge_idx b.driver_L0 b.driver_stroke
        ((pymaxI 1 n).toNat) ((pymaxI 1 it).toNat)
        (pts.map fun p => p.x) (pts.map fun p => p.y) ((pymaxI 1 n).toNat + 1) := by
  rw [solve_ok_of_build_ok hyp pts bds b n it hb]
  rfl

/-- C5 counterexample: with no rear-axle point the leverage ratio is
`None` at every step, even when consecutive strokes differ.  `wpts` has
no `rear_axle`-typed point; the solve succeeds, step 1's stroke differs
from step 0's, yet its `leverage_ratio` is `None`.  So "is a finite,
defined (non-None) number for every step with step_index >= 1 whose
shock_stroke differs from the previous step's" is false as stated. -/
theorem C5_cex :
    (solve_bike_linkage l1dist wpts wbds 1 1).isOk = true ∧
    ((resSteps (solve_bike_linkage l1dist wpts wbds 1 1)).getD 1 default).shock_stroke ≠
      ((resSteps (solve_bike_linkage l1dist wpts wbds 1 1)).getD 0 default).shock_stroke ∧
    ((resSteps (solve_bike_linkage l1dist wpts wbds 1 1)).getD 1
      default).leverage_ratio = none := by
  refine ⟨by with_unfolding_all rfl, by with_unfolding_all decide,
    by with_unfolding_all rfl⟩

/-- C5 (amended), for every builder-accepted input: (i) leverage_ratio
is `None` at step 0, unconditionally; (ii) provided a rear-axle point
exists, it is defined (non-`None`, hence a rational number) at every
step with index >= 1 whenever the uniform stroke increment
`driver_stroke / n_steps` exceeds the `1e-9` guard in absolute value
(which is exactly "consecutive strokes differ" up to that numerical
guard); and (iii) with no rear-axle point it is `None` at every step of
the result, however the strokes differ. -/
theorem C5_thm (hyp : ℚ → ℚ → ℚ) (pts : List BikePoint) (bds : List RigidBody)
    (b : BuildOut) (n it : ℤ) (hb : build_internal_model hyp pts bds = Except.ok b) :
    ((resSteps (solve_bike_linkage hyp pts bds n it)).getD 0 default).leverage_ratio
      = none ∧
    (b.rear_axle_idx.isSome = true →
      1 / 1000000000 < pyabs (b.driver_stroke / (((pymaxI 1 n).toNat : ℕ) : ℚ)) →
      ∀ k, 1 ≤ k → k ≤ (pymaxI 1 n).toNat →
        ((resSteps (solve_bike_linkage hyp pts bds n it)).getD k
          default).leverage_ratio.isSome = true) ∧
    (b.rear_axle_idx = none →
      ∀ k, k ≤ (pymaxI 1 n).toNat →
        ((resSteps (solve_bike_linkage hyp pts bds n it)).getD k
          default).leverage_ratio = none) := by
  rw [resSteps_eq_sweep hyp pts bds b n it hb]
  obtain ⟨hlen, hprop⟩ := sweep_spec hyp pts b.edges b.fixed b.rear_axle_idx
    (b.rear_axle_idx.map fun ri => (pts.map (fun p => p.y)).getD ri 0)
    b.driver_edge_idx b.driver_L0 b.driver_stroke
    ((pymaxI 1 n).toNat) ((pymaxI 1 it).toNat)
    (pts.map fun p => p.x) (pts.map fun p => p.y) ((pymaxI 1 n).toNat + 1)
  refine ⟨?_, ?_, ?_⟩
  · exact (hprop 0 (Nat.succ_pos _)).2.2.2.1 rfl
  · intro hrear hds k hk1 hk2
    have hry0 : ((b.rear_axle_idx.map fun ri =>
        (pts.map (fun p => p.y)).getD ri 0)).isSome = true := by
      rw [Option.isSome_map']
      exact hrear
    obtain ⟨j, rfl⟩ : ∃ j, k = j + 1 := ⟨k - 1, by omega⟩
    refine (hprop (j + 1) (by omega)).2.2.2.2.1 j rfl hrear hry0 ?_
    rw [strokeAt_succ_sub]
    exact hds
  · intro hnone k hk
    exact (hprop k (by omega)).2.2.2.2.2 hnone

/-- C5 witness: with a rear axle (`w5pts`), step 0's leverage is `None`
and step 1's is defined; without one (`wpts`, same shock, strokes 0 and
2), step 1's leverage is `None`. -/
theorem C5_wit :
    ((resSteps (solve_bike_linkage l1dist w5pts wbds 1 1)).getD 0
      default).leverage_ratio = none ∧
    ((resSteps (solve_bike_linkage l1dist w5pts wbds 1 1)).getD 1
      default).leverage_ratio.isSome = true ∧
    ((resSteps (solve_bike_linkage l1dist wpts wbds 1 1)).getD 1
      default).leverage_ratio = none := by
  have h5 := C5_thm l1dist w5pts wbds
    ⟨[⟨0, 1, 5, true⟩], [true, false], some 1, 0, 5, 2⟩ 1 1
    (by with_unfolding_all rfl)
  have h0 := C5_thm l1dist wpts wbds
    ⟨[⟨0, 1, 5, true⟩], [true, false], none, 0, 5, 2⟩ 1 1
    (by with_unfolding_all rfl)
  exact ⟨h5.1,
    h5.2.1 rfl (by with_unfolding_all decide) 1 le_rfl (by with_unfolding_all decide),
    h0.2.2 rfl 1 (by with_unfolding_all decide)⟩

/-- C6: if every compiled edge's measured distance at the initial
coordinates equals its rest length (for a definite distance function),
and the driver's epsilon-clamped zero-stroke target equals its rest
length (`1e-6 ≤ driver_L0`, the claim's "the driver's target length
equals its full rest length"), then the pose recorded at step 0 is
exactly the input pose: the points map lists every point at its initial
coordinates. -/
theorem C6_thm (hyp : ℚ → ℚ → ℚ) (pts : List BikePoint) (bds : List RigidBody)
    (b : BuildOut) (n it : ℤ) (hb : build_internal_model hyp pts bds = Except.ok b)
    (hz : ∀ a c : ℚ, hyp a c = 0 → a = 0 ∧ c = 0)
    (hsat : ∀ e ∈ b.edges,
      hyp ((pts.map (fun p => p.x)).getD e.ib 0 - (pts.map (fun p => p.x)).getD e.ia 0)
        ((pts.map (fun p => p.y)).getD e.ib 0 - (pts.map (fun p => p.y)).getD e.ia 0)
        = e.L0)
    (hL0 : 1 / 1000000 ≤ b.driver_L0) :
    ((resSteps (solve_bike_linkage hyp pts bds n it)).getD 0 default).points =
      pts.map (fun p => (p.id, p.x, p.y)) := by
  rw [resSteps_eq_sweep hyp pts bds b n it hb]
  apply sweep_step0_points hyp pts b.edges b.fixed b.rear_axle_idx _
    b.driver_edge_idx b.driver_L0 b.driver_stroke _ _ _ hz hsat
  intro p hp hc
  obtain ⟨hpi, hps⟩ := hc
  obtain ⟨hblt, hbL0, hbshock⟩ := build_driver_coherent hyp pts bds b hb
  have hpe : b.edges[p.1]? = some p.2 := List.mem_enum_iff_getElem?.mp hp
  rw [hpi] at hpe
  have hpd : p.2 = b.edges.getD b.driver_edge_idx default := by
    rw [List.getD_eq_getElem?_getD, hpe]
    rfl
  rw [strokeAt_zero, sub_zero, pymax, if_pos hL0, hpd]
  exact hbL0.symm

/-- C6 witness: `wpts`/`wbds` is already satisfied (shock rest length 5 =
distance between the two vertically aligned points), so step 0 records
the input pose. -/
theorem C6_wit :
    ((resSteps (solve_bike_linkage l1dist wpts wbds 3 2)).getD 0 default).points =
      wpts.map (fun p => (p.id, p.x, p.y)) :=
  C6_thm l1dist wpts wbds ⟨[⟨0, 1, 5, true⟩], [true, false], none, 0, 5, 2⟩ 3 2
    (by with_unfolding_all rfl) l1dist_zero (by with_unfolding_all decide)
    (by with_unfolding_all decide)

/-- C7: a point whose compiled fixed flag is true is never moved — in
every step of the result its recorded entry is its id with its initial
input coordinates.  This holds for any distance function and any
accepted input, because the relaxation update only ever writes at
indices whose fixed flag is unset. -/
theorem C7_thm (hyp : ℚ → ℚ → ℚ) (pts : List BikePoint) (bds : List RigidBody)
    (b : BuildOut) (n it : ℤ) (hb : build_internal_model hyp pts bds = Except.ok b) :
    ∀ k, k < (resSteps (solve_bike_linkage hyp pts bds n it)).length →
    ∀ i, i < pts.length → b.fixed.getD i false = true →
    ((resSteps (solve_bike_linkage hyp pts bds n it)).getD k default).points.getD i
        default =
      ((pts.getD i default).id, (pts.getD i default).x, (pts.getD i default).y) := by
  rw [resSteps_eq_sweep hyp pts bds b n it hb]
  intro k hk i hi hfix
  have hmem : (sweepSteps hyp pts b.edges b.fixed b.rear_axle_idx
      (b.rear_axle_idx.map fun ri => (pts.map (fun p => p.y)).getD ri 0)
      b.driver_edge_idx b.driver_L0 b.driver_stroke
      ((pymaxI 1 n).toNat) ((pymaxI 1 it).toNat)
      (pts.map fun p => p.x) (pts.map fun p => p.y)
      ((pymaxI 1 n).toNat + 1)).getD k default ∈
      sweepSteps hyp pts b.edges b.fixed b.rear_axle_idx
      (b.rear_axle_idx.map fun ri => (pts.map (fun p => p.y)).getD ri 0)
      b.driver_edge_idx b.driver_L0 b.driver_stroke
      ((pymaxI 1 n).toNat) ((pymaxI 1 it).toNat)
      (pts.map fun p => p.x) (pts.map fun p => p.y)
      ((pymaxI 1 n).toNat + 1) := by
    rw [List.getD_eq_getElem?_getD, List.getElem?_eq_getElem hk]
    exact List.getElem_mem hk
  exact sweep_fixed_points hyp pts b.edges b.fixed b.rear_axle_idx
    (b.rear_axle_idx.map fun ri => (pts.map (fun p => p.y)).getD ri 0)
    b.driver_edge_idx b.driver_L0 b.driver_stroke
    ((pymaxI 1 n).toNat) ((pymaxI 1 it).toNat) ((pymaxI 1 n).toNat + 1)
    _ hmem i hi hfix

/-- C7 witness: the pinned point `p1` of `wpts` is recorded at its input
coordinates in step 1. -/
theorem C7_wit :
    ((resSteps (solve_bike_linkage l1dist wpts wbds 1 1)).getD 1 default).points.getD 0
        default =
      ((wpts.getD 0 default).id, (wpts.getD 0 default).x, (wpts.getD 0 default).y) :=
  C7_thm l1dist wpts wbds ⟨[⟨0, 1, 5, true⟩], [true, false], none, 0, 5, 2⟩ 1 1
    (by with_unfolding_all rfl) 1 (by with_unfolding_all decide) 0 (by decide)
    (by decide)

/-- C10 (implicit): `n_steps` and `iterations` below 1 are clamped up to
1 rather than raising — for any builder-accepted input the solve still
succeeds, equals the same call with `max(1, n_steps)` and
`max(1, iterations)`, and in particular `n_steps <= 0` yields a 2-record
result whose strokes are 0 and the full configured stroke. -/
theorem C10_thm (hyp : ℚ → ℚ → ℚ) (pts : List BikePoint) (bds : List RigidBody)
    (b : BuildOut) (n it : ℤ) (hb : build_internal_model hyp pts bds = Except.ok b) :
    (solve_bike_linkage hyp pts bds n it).isOk = true ∧
    solve_bike_linkage hyp pts bds n it =
      solve_bike_linkage hyp pts bds (pymaxI 1 n) (pymaxI 1 it) ∧
    (n ≤ 0 →
      (resSteps (solve_bike_linkage hyp pts bds n it)).length = 2 ∧
      ((resSteps (solve_bike_linkage hyp pts bds n it)).getD 0 default).shock_stroke
        = 0 ∧
      ((resSteps (solve_bike_linkage hyp pts bds n it)).getD 1 default).shock_stroke
        = b.driver_stroke) := by
  refine ⟨?_, ?_, ?_⟩
  · rw [solve_isOk_eq_build, hb]
    rfl
  · rw [solve_ok_of_build_ok hyp pts bds b n it hb,
      solve_ok_of_build_ok hyp pts bds b (pymaxI 1 n) (pymaxI 1 it) hb]
    have hsw : solve_with_edges hyp pts b.edges b.fixed b.rear_axle_idx
        b.driver_edge_idx b.driver_L0 b.driver_stroke n it =
        solve_with_edges hyp pts b.edges b.fixed b.rear_axle_idx
        b.driver_edge_idx b.driver_L0 b.driver_stroke (pymaxI 1 n) (pymaxI 1 it) := by
      unfold solve_with_edges
      rw [pymaxI_idem, pymaxI_idem]
    rw [hsw]
  · intro hn0
    have hns : (pymaxI 1 n).toNat = 1 := by
      rw [pymaxI_of_lt n (by omega)]
      rfl
    rw [resSteps_eq_sweep hyp pts bds b n it hb, hns]
    obtain ⟨hlen, hprop⟩ := sweep_spec hyp pts b.edges b.fixed b.rear_axle_idx
      (b.rear_axle_idx.map fun ri => (pts.map (fun p => p.y)).getD ri 0)
      b.driver_edge_idx b.driver_L0 b.driver_stroke 1 ((pymaxI 1 it).toNat)
      (pts.map fun p => p.x) (pts.map fun p => p.y) (1 + 1)
    refine ⟨hlen, ?_, ?_⟩
    · rw [(hprop 0 (by omega)).2.1, strokeAt_zero]
    · rw [(hprop 1 (by omega)).2.1, strokeAt]
      norm_num

/-- C10 witness: `n_steps = 0`, `iterations = 0` on the valid `wpts`
linkage — no error, 2 records, strokes 0 and 2. -/
theorem C10_wit :
    (solve_bike_linkage l1dist wpts wbds 0 0).isOk = true ∧
    (resSteps (solve_bike_linkage l1dist wpts wbds 0 0)).length = 2 ∧
    ((resSteps (solve_bike_linkage l1dist wpts wbds 0 0)).getD 1
      default).shock_stroke = 2 := by
  have h := C10_thm l1dist wpts wbds ⟨[⟨0, 1, 5, true⟩], [true, false], none, 0, 5, 2⟩
    0 0 (by with_unfolding_all rfl)
  exact ⟨h.1, (h.2.2 (by decide)).1, (h.2.2 (by decide)).2.2⟩

/-- C1 counterexample: the builder accepts a negative stroke (`c1bds`,
stroke −1), under which `shock_stroke` is strictly decreasing: step 1's
stroke is smaller than step 0's.  So "shock_stroke is non-decreasing" is
false as stated for builder-accepted inputs. -/
theorem C1_cex :
    (build_internal_model l1dist wpts c1bds).isOk = true ∧
    ((resSteps (solve_bike_linkage l1dist wpts c1bds 1 1)).getD 1 default).shock_stroke <
      ((resSteps (solve_bike_linkage l1dist wpts c1bds 1 1)).getD 0
        default).shock_stroke := by
  refine ⟨by with_unfolding_all rfl, by with_unfolding_all decide⟩

/-- C1 (amended): for builder-accepted input and `n_steps, iterations
>= 1`, the result has exactly `n_steps + 1` records whose `step_index`
values are 0..n_steps in order and whose `shock_stroke` at index `i` is
exactly `driver_stroke * (i / n_steps)` (linearity); hence the stroke is
0 at step 0 and the full configured stroke at the last step, and — under
the additional hypothesis, forced by the counterexample, that the
configured stroke is nonnegative — non-decreasing across steps. -/
theorem C1_thm (hyp : ℚ → ℚ → ℚ) (pts : List BikePoint) (bds : List RigidBody)
    (b : BuildOut) (n it : ℤ) (hb : build_internal_model hyp pts bds = Except.ok b)
    (hn : 1 ≤ n) (hit : 1 ≤ it) :
    (resSteps (solve_bike_linkage hyp pts bds n it)).length = n.toNat + 1 ∧
    (∀ k, k ≤ n.toNat →
      ((resSteps (solve_bike_linkage hyp pts bds n it)).getD k default).step_index
        = k ∧
      ((resSteps (solve_bike_linkage hyp pts bds n it)).getD k default).shock_stroke
        = b.driver_stroke * ((k : ℚ) / ((n.toNat : ℕ) : ℚ))) ∧
    ((resSteps (solve_bike_linkage hyp pts bds n it)).getD 0 default).shock_stroke
      = 0 ∧
    ((resSteps (solve_bike_linkage hyp pts bds n it)).getD n.toNat
      default).shock_stroke = b.driver_stroke ∧
    (0 ≤ b.driver_stroke → ∀ k l : ℕ, k ≤ l → l ≤ n.toNat →
      ((resSteps (solve_bike_linkage hyp pts bds n it)).getD k default).shock_stroke ≤
      ((resSteps (solve_bike_linkage hyp pts bds n it)).getD l
        default).shock_stroke) := by
  have hns : (pymaxI 1 n).toNat = n.toNat := by rw [pymaxI_of_le n hn]
  rw [resSteps_eq_sweep hyp pts bds b n it hb, hns]
  obtain ⟨hlen, hprop⟩ := sweep_spec hyp pts b.edges b.fixed b.rear_axle_idx
    (b.rear_axle_idx.map fun ri => (pts.map (fun p => p.y)).getD ri 0)
    b.driver_edge_idx b.driver_L0 b.driver_stroke n.toNat ((pymaxI 1 it).toNat)
    (pts.map fun p => p.x) (pts.map fun p => p.y) (n.toNat + 1)
  have hcast : (0 : ℚ) < ((n.toNat : ℕ) : ℚ) := by
    have : (1 : ℕ) ≤ n.toNat := by omega
    exact_mod_cast Nat.pos_of_ne_zero (by omega)
  refine ⟨hlen, ?_, ?_, ?_, ?_⟩
  · intro k hk
    obtain ⟨h1, h2, -, -, -, -⟩ := hprop k (by omega)
    exact ⟨h1, by rw [h2]; rfl⟩
  · rw [(hprop 0 (by omega)).2.1, strokeAt_zero]
  · rw [(hprop n.toNat (by omega)).2.1, strokeAt, div_self (ne_of_gt hcast), mul_one]
  · intro hpos k l hkl hl
    rw [(hprop k (by omega)).2.1, (hprop l (by omega)).2.1, strokeAt, strokeAt]
    apply mul_le_mul_of_nonneg_left _ hpos
    exact (div_le_div_iff_of_pos_right hcast).mpr (by exact_mod_cast hkl)

/-- C1 witness: the amended theorem at `wpts`/`wbds` with `n_steps = 2`:
3 records, last stroke equal to the configured stroke 2, monotone. -/
theorem C1_wit :
    (resSteps (solve_bike_linkage l1dist wpts wbds 2 1)).length = 3 ∧
    ((resSteps (solve_bike_linkage l1dist wpts wbds 2 1)).getD 0 default).shock_stroke
      = 0 ∧
    ((resSteps (solve_bike_linkage l1dist wpts wbds 2 1)).getD 2 default).shock_stroke
      = 2 := by
  have h := C1_thm l1dist wpts wbds ⟨[⟨0, 1, 5, true⟩], [true, false], none, 0, 5, 2⟩
    2 1 (by with_unfolding_all rfl) (by decide) (by decide)
  exact ⟨h.1, h.2.2.1, h.2.2.2.1⟩
